import Mathlib

/-
Shallow embedding of the semantic-lowering engine of the robotpy-build
binding generator (src/robotpy_build/hooks.py), together with theorems
checking the specification claims about it.

Modelling conventions:
- Python strings are modelled by Lean String; indexing, slicing and
  prefix tests are performed character-wise on the underlying data list,
  matching Python per-character semantics for the ASCII identifiers the
  engine manipulates.
- Python dicts used as ordered maps (the buffer-spec maps, the
  ignored-bases map) are modelled as insertion-ordered association lists
  with key replacement on duplicate insert, like Python dicts.
- The process-wide set of recorded type-caster type strings is modelled
  as the list of recorded strings; set semantics are recovered at
  resolution time by deduplication, which is observationally equivalent
  since the resolver returns a sorted deduplicated result.
- Python exceptions (ValueError, IndexError, HookError) are modelled by
  Except String; the engine never mutates records on the error path in
  this embedding, mirroring the fact that the modelled checks fire
  before the corresponding record mutations in the source.
- External collaborators that are not part of this repository or not in
  scope (the header parser, the override-config loader
  hooks_datacfg/generator_data, the sphinxify docstring converter) are
  modelled as input data and injected functions on the Hooks context.
-/

/-! ### Character-level string helpers (Python slicing semantics) -/

/-- Drop the first n characters, like a Python slice s[n:]. -/
def strDrop (s : String) (n : Nat) : String := ⟨s.data.drop n⟩

/-- Take the first n characters, like a Python slice s[:n]. -/
def strTake (s : String) (n : Nat) : String := ⟨s.data.take n⟩

/-- Number of characters, like Python len(s). -/
def strLen (s : String) : Nat := s.data.length

/-- Character-wise prefix test, like Python s.startswith(p). -/
def strStartsWith (p s : String) : Bool := p.data.isPrefixOf s.data

/-- Infix test on character lists, like the Python operator sub in s. -/
def listIsInfix (xs : List Char) : List Char → Bool
  | [] => xs.isEmpty
  | y :: ys => xs.isPrefixOf (y :: ys) || listIsInfix xs ys

/-- Python substring containment test, sub in s. -/
def strContains (sub s : String) : Bool := listIsInfix sub.data s.data

/-- Python str.isupper for ASCII identifier text: at least one cased
character and no lowercase cased character. -/
def pyIsUpper (s : String) : Bool :=
  s.data.any Char.isAlpha && s.data.all (fun c => !c.isLower)

/-- Python truthiness of an optional string: None and the empty string
are falsy. -/
def pyTruthyStr (o : Option String) : Bool :=
  match o with
  | some s => s != ""
  | none => false

/-- A string of n copies of one character, like Python c * n. -/
def repChar (c : Char) (n : Nat) : String := ⟨List.replicate n c⟩

/-- Deduplicate keeping the first occurrence of each element, like the
key set of a Python dict built by repeated insertion. -/
def pyDedup (seen : List String) : List String → List String
  | [] => []
  | a :: l => if seen.contains a then pyDedup seen l else a :: pyDedup (a :: seen) l

/-- Split a string after each newline, keeping the terminator, like
Python str.splitlines(keepends=True) restricted to the LF terminator. -/
def splitKeepEndsAux (acc : List Char) : List Char → List String
  | [] => if acc.isEmpty then [] else [⟨acc.reverse⟩]
  | c :: cs =>
    if c = '\n' then ⟨(c :: acc).reverse⟩ :: splitKeepEndsAux [] cs
    else splitKeepEndsAux (c :: acc) cs

/-- Python-style splitlines(keepends=True) for LF-terminated text. -/
def splitKeepEnds (s : String) : List String := splitKeepEndsAux [] s.data

/-- Whether an Except value is a success, like the absence of a raised
exception in the source. -/
def isOkE {α : Type} (e : Except String α) : Bool :=
  match e with
  | .ok _ => true
  | .error _ => false

/-! ### External override-configuration records

These model the already-typed override records produced by the external
config loader (hooks_datacfg), which is out of scope of this repository
core; the fields modelled are exactly those the engine reads. -/

/-- Buffer direction marker, hooks_datacfg.BufferType. -/
inductive BufferType
  | IN
  | OUT
  | INOUT
deriving DecidableEq, Inhabited

/-- Return-value ownership policy, hooks_datacfg.ReturnValuePolicy. -/
inductive ReturnValuePolicy
  | TAKE_OWNERSHIP
  | COPY
  | MOVE
  | REFERENCE
  | REFERENCE_INTERNAL
  | AUTOMATIC
  | AUTOMATIC_REFERENCE
deriving DecidableEq, Inhabited

/-- Translation of the module-level rvp map of pybind11 policy text. -/
def rvpMap (p : ReturnValuePolicy) : String :=
  match p with
  | .TAKE_OWNERSHIP => ", py::return_value_policy::take_ownership"
  | .COPY => ", py::return_value_policy::copy"
  | .MOVE => ", py::return_value_policy::move"
  | .REFERENCE => ", py::return_value_policy::reference"
  | .REFERENCE_INTERNAL => ", py::return_value_policy::reference_internal"
  | .AUTOMATIC => ""
  | .AUTOMATIC_REFERENCE => ", py::return_value_policy::automatic_reference"

/-- Modelled from the spec: a buffer specification (spec 3, BufferSpec):
source-parameter name, length-parameter name, direction, optional
minimum size; the fields src, len, type, minsz are the ones the engine
reads. -/
structure BufferData where
  src : String := ""
  len : String := ""
  type : BufferType := .IN
  minsz : Option Nat := none
deriving DecidableEq, Inhabited

/-- Modelled from the spec: the external per-parameter override record
(spec 4.3: any override field replaces the corresponding computed
attribute before role classification). Set fields replace the matching
parameter attributes. -/
structure ParamOverride where
  x_type : Option String := none
  x_callname : Option String := none
  x_retname : Option String := none
  ignore : Option Bool := none
  force_out : Option Bool := none
  default : Option String := none
deriving DecidableEq, Inhabited

/-- Modelled from the spec: the external per-function override record
(hooks_datacfg.FunctionData); only fields read by the engine appear. -/
structure FunctionData where
  ignore : Bool := false
  rename : Option String := none
  internal : Bool := false
  cpp_code : Option String := none
  no_release_gil : Option Bool := none
  buffers : List BufferData := []
  param_override : List (String × ParamOverride) := []
  return_value_policy : ReturnValuePolicy := .AUTOMATIC
  keepalive : Option (List (Nat × Nat)) := none
  doc : Option String := none
  subpackage : Option String := none
deriving DecidableEq, Inhabited

/-- Modelled from the spec: the external per-class override record
(hooks_datacfg.ClassData); only fields read by the engine appear. -/
structure ClassData where
  ignore : Bool := false
  rename : Option String := none
  subpackage : Option String := none
  base_qualnames : List (String × String) := []
  ignored_bases : List String := []
  force_depends : List String := []
  is_polymorphic : Bool := false
  force_no_trampoline : Bool := false
deriving DecidableEq, Inhabited

/-- Modelled from the spec: the external per-enum override record
(hooks_datacfg.EnumData). -/
structure EnumData where
  rename : Option String := none
  value_prefix : Option String := none
  subpackage : Option String := none
deriving DecidableEq, Inhabited

/-- Property access override, hooks_datacfg.PropAccess. -/
inductive PropAccess
  | AUTOMATIC
  | READONLY
  | READWRITE
deriving DecidableEq, Inhabited

/-- Modelled from the spec: the external per-property override record
(hooks_datacfg.PropData). -/
structure PropData where
  ignore : Bool := false
  rename : Option String := none
  access : PropAccess := .AUTOMATIC
deriving DecidableEq, Inhabited

/-! ### Parsed declaration records (input of the engine)

These model the raw dict records handed over by the external header
parser, restricted to the attributes the engine reads, plus the slots
for the computed x_ attributes the engine fills in. The Python field
names namespace and class are Lean keywords and appear here as ns and
cls. -/

/-- A function parameter record with its computed attribute slots. -/
structure Param where
  name : String := ""
  raw_type : String := ""
  enum : Option String := none
  pointer : Nat := 0
  reference : Nat := 0
  constant : Nat := 0
  fundamental : Bool := false
  unresolved : Bool := false
  array : Bool := false
  array_size : Nat := 0
  default : Option String := none
  force_out : Bool := false
  ignore : Bool := false
  cls : Option Nat := none
  x_type : String := ""
  x_callname : String := ""
  x_retname : String := ""
  x_pyarg : String := ""
  x_type_full : String := ""
  x_decl : String := ""
deriving DecidableEq, Inhabited

/-- The enclosing-class record a function links to, as read by the
default-value resolver: namespace, class name, and the names of the
public properties. -/
structure ParentRec where
  ns : String := ""
  name : String := ""
  props : List String := []
deriving DecidableEq, Inhabited

/-- A parsed function or method record. -/
structure Fn where
  name : String := ""
  returns : String := ""
  rtnType : String := "void"
  parameters : List Param := []
  constructor : Bool := false
  destructor : Bool := false
  operator : Bool := false
  const : Bool := false
  override : Bool := false
  virtual : Bool := false
  doxygen : Option String := none
  parent : Option ParentRec := none
deriving DecidableEq, Inhabited

/-- A parsed enumerator value with its computed short-name slot. -/
structure EnumVal where
  name : String := ""
  x_name : String := ""
deriving DecidableEq, Inhabited

/-- A parsed enum record; the name is optional (anonymous enums). -/
structure EnumRec where
  name : Option String := none
  ns : String := ""
  values : List EnumVal := []
deriving DecidableEq, Inhabited

/-- A declared base of a class, with computed qualified-name slots. -/
structure BaseRec where
  cls : String := ""
  x_qualname : String := ""
  x_qualname_ : String := ""
deriving DecidableEq, Inhabited

/-- A parsed class property (attribute) record. -/
structure PropRec where
  name : String := ""
  raw_type : String := ""
  fundamental : Bool := false
  reference : Nat := 0
deriving DecidableEq, Inhabited

/-- A parsed class record. The field parents lists the names of the
enclosing classes, innermost first; id is a token standing for the
object identity used by the parser for the is test on copy and move
constructors. -/
structure ClsRecord where
  id : Nat := 0
  name : String := ""
  ns : String := ""
  parents : List String := []
  access_in_parent : String := ""
  final : Bool := false
  inherits : List BaseRec := []
  methodsPublic : List Fn := []
  methodsProtected : List Fn := []
  methodsPrivate : List Fn := []
  propsPublic : List PropRec := []
  propsProtected : List PropRec := []
  propsPrivate : List PropRec := []
  enumsPublic : List EnumRec := []
deriving DecidableEq, Inhabited

/-! ### The Hooks context

Configuration and the external override registry (generator_data), the
docstring converter, and the type-caster name-to-path table are
injected as functions. -/

/-- The engine context: run configuration and external lookups. -/
structure Hooks where
  strip_prefixes : List String := []
  casters : String → Option String := fun _ => none
  sphinxify : String → String := id
  getFunctionData : String → String → FunctionData := fun _ _ => {}
  getClassData : String → ClassData := fun _ => {}
  getMethodData : String → String → String → FunctionData := fun _ _ _ => {}
  getClsEnumData : Option String → String → EnumData := fun _ _ => {}
  getClsPropData : String → String → PropData := fun _ _ => {}

/-! ### Type-caster registry (_add_type_caster / _get_type_caster_includes) -/

/-- Discard any template-argument suffix: text from the first angle
bracket on, as done before the caster table lookup. -/
def stripTmpl (s : String) : String := ⟨s.data.takeWhile (fun c => c ≠ '<')⟩

/-- Table lookup with Python truthiness: a missing entry and an empty
string entry both yield nothing, translating the if header: guard. -/
def truthyCaster (ctx : Hooks) (n : String) : Option String :=
  match ctx.casters n with
  | some h => if h = "" then none else some h
  | none => none

/-- Translation of _get_type_caster_includes: look up every recorded
type with its template arguments stripped, keep truthy headers, and
return the sorted deduplicated include list. The Python set of recorded
types is modelled by the recorded list with deduplication here. -/
def getTypeCasterIncludes (ctx : Hooks) (types : List String) : List String :=
  List.insertionSort (· ≤ ·)
    (pyDedup [] (types.filterMap (fun t => truthyCaster ctx (stripTmpl t))))

/-! ### Name resolution (_set_name) -/

/-- Strip the first matching configured prefix, first match wins. -/
def stripFirstPfx : List String → String → String
  | [], n => n
  | p :: ps, n => if strStartsWith p n then strDrop n (strLen p) else stripFirstPfx ps n

/-- Translation of _set_name: an explicit truthy rename wins, otherwise
the first matching configured prefix is stripped once. -/
def setName (ctx : Hooks) (name : String) (rename : Option String) : String :=
  if pyTruthyStr rename then rename.getD ""
  else stripFirstPfx ctx.strip_prefixes name

/-! ### Enum normalization (_enum_hook) -/

/-- The effective value prefix of a named enum: the configured truthy
value prefix, or the enum name itself. -/
def effValuePfx (d : EnumData) (ename : String) : String :=
  match d.value_prefix with
  | some p => if p = "" then ename else p
  | none => ename

/-- Normalize one enumerator name: when the (truthy) prefix matches,
strip it, then inspect character 0 of the remainder, failing like the
Python IndexError if the remainder is empty, and strip one leading
underscore. -/
def normEnumValName (vp : Option String) (name : String) : Except String String :=
  match vp with
  | some pfx =>
    if pfx != "" && strStartsWith pfx name then
      match (strDrop name (strLen pfx)).data with
      | [] => .error "string index out of range"
      | c :: cs => .ok (if c = '_' then ⟨cs⟩ else ⟨c :: cs⟩)
    else .ok name
  | none => .ok name

/-- Normalize every enumerator of an enum in order. -/
def enumValues (vp : Option String) : List EnumVal → Except String (List EnumVal)
  | [] => .ok []
  | v :: vs =>
    match normEnumValName vp v.name with
    | .error e => .error e
    | .ok n =>
      match enumValues vp vs with
      | .error e => .error e
      | .ok rest => .ok ({ v with x_name := n } :: rest)

/-- The enriched enum produced by _enum_hook. -/
structure EnumOut where
  x_name : Option String := none
  values : List EnumVal := []
deriving DecidableEq, Inhabited

/-- Translation of _enum_hook: a named (truthy-named) enum gets an
external name and an effective value prefix; each value name is then
normalized against that prefix. -/
def enumHook (ctx : Hooks) (en : EnumRec) (d : EnumData) : Except String EnumOut :=
  match en.name with
  | some ename =>
    if ename = "" then
      match enumValues none en.values with
      | .error e => .error e
      | .ok vs => .ok { x_name := none, values := vs }
    else
      match enumValues (some (effValuePfx d ename)) en.values with
      | .error e => .error e
      | .ok vs => .ok { x_name := some (setName ctx ename d.rename), values := vs }
  | none =>
    match enumValues none en.values with
    | .error e => .error e
    | .ok vs => .ok { x_name := none, values := vs }

/-! ### Function processing (_function_hook) -/

/-- Translation of the _gen_int_types generator: the fixed-width
integer type names that are forced to be fundamental. -/
def genIntTypes : List String :=
  (["int", "uint"].flatMap fun i =>
    (["", "_fast", "_least"].flatMap fun j =>
      (["8", "16", "32", "64"].map fun k => i ++ j ++ k ++ "_t")))
  ++ ["intmax_t", "uintmax_t"]

/-- Translation of _resolve_default for a textual default value: the
null-pointer spellings pass through, any other name is rewritten to a
qualified reference each time it matches a public property name of the
declaring class. Numeric defaults reach the engine already rendered as
their literal text. -/
def resolveDefault (fn : Fn) (name : String) : String :=
  if name = "NULL" || name = "nullptr" then name
  else
    match fn.parent with
    | none => name
    | some par =>
      par.props.foldl
        (fun n propName =>
          if propName = n then par.ns ++ "::" ++ par.name ++ "::" ++ n else n)
        name

/-- Translation of _get_function_signature: parameter types with enum
substitution and pointer and reference markers, template-bracket
normalized, with a trailing const marker. -/
def getFunctionSignature (fn : Fn) : String :=
  let ps := String.intercalate ", "
    (fn.parameters.map (fun p =>
      p.enum.getD p.raw_type ++ repChar '&' p.reference ++ repChar '*' p.pointer))
  let ps := String.replace ps " >" ">"
  if fn.const then (if ps != "" then ps ++ " [const]" else "[const]") else ps

/-- One entry of the return aggregate: the name returned and its type. -/
structure Ret where
  x_retname : String := ""
  x_type : String := ""
deriving DecidableEq, Inhabited

/-- The camel-casing step applied to a function name: lowercase the
first character unless the first two characters are both uppercase;
indexing an empty name fails like the Python IndexError. -/
def computeXName (ctx : Hooks) (data : FunctionData) (fnName : String) : Except String String :=
  let x := setName ctx fnName data.rename
  if !pyTruthyStr data.rename && !pyIsUpper (strTake x 2) then
    match x.data with
    | [] => .error "string index out of range"
    | c :: cs => .ok ⟨c.toLower :: cs⟩
  else .ok x

/-- Translation of the no_release_gil adjustment: functions with custom
cpp_code default to not releasing the GIL. -/
def adjustGil (data : FunctionData) : FunctionData :=
  if data.no_release_gil.isNone && pyTruthyStr data.cpp_code then
    { data with no_release_gil := some true }
  else data

/-- Insert into an insertion-ordered association list, replacing the
value in place when the key exists, like a Python dict store. -/
def insertReplace (k : String) (v : BufferData) :
    List (String × BufferData) → List (String × BufferData)
  | [] => [(k, v)]
  | (k', v') :: rest =>
    if k' = k then (k, v) :: rest else (k', v') :: insertReplace k v rest

/-- Remove a key from an association list, returning the value found,
like Python dict.pop(k, None). -/
def popAssoc (k : String) :
    List (String × BufferData) → Option BufferData × List (String × BufferData)
  | [] => (none, [])
  | (k', v) :: rest =>
    if k' = k then (some v, rest)
    else
      let r := popAssoc k rest
      (r.1, (k', v) :: r.2)

/-- The message raised when a buffer spec uses one name for both ends. -/
def bufSrcLenMsg (b : BufferData) : String :=
  "buffer src(" ++ b.src ++ ") and len(" ++ b.len ++ ") cannot be the same"

/-- Build the source-name and length-name maps of the configured buffer
specs, rejecting any spec whose two names coincide, in order. -/
def buildBufferMaps (bp blp : List (String × BufferData)) :
    List BufferData → Except String (List (String × BufferData) × List (String × BufferData))
  | [] => .ok (bp, blp)
  | b :: bs =>
    if b.src = b.len then .error (bufSrcLenMsg b)
    else buildBufferMaps (insertReplace b.src b bp) (insertReplace b.len b blp) bs

/-- The two buffer maps as built when no spec is rejected. -/
def bufferAssocsAux (bp blp : List (String × BufferData)) :
    List BufferData → List (String × BufferData) × List (String × BufferData)
  | [] => (bp, blp)
  | b :: bs => bufferAssocsAux (insertReplace b.src b bp) (insertReplace b.len b blp) bs

/-- The two buffer maps of a configured buffer-spec list. -/
def bufferAssocs (bs : List BufferData) :
    List (String × BufferData) × List (String × BufferData) :=
  bufferAssocsAux [] [] bs

/-- The source-equals-length error of the first offending buffer spec,
when one exists. -/
def findDupMsg : List BufferData → Option String
  | [] => none
  | b :: bs => if b.src = b.len then some (bufSrcLenMsg b) else findDupMsg bs

/-- Mutable state threaded through the parameter loop. -/
structure PState where
  bufferParams : List (String × BufferData) := []
  buflenParams : List (String × BufferData) := []
  params : List Param := []
  x_all_params : List Param := []
  x_in_params : List Param := []
  x_out_params : List Param := []
  x_temps : List Param := []
  x_keepalives : List (Nat × Nat) := []
  x_genlambda : Bool := false
  x_lambda_pre : List String := []
  types : List String := []
deriving Inhabited

/-- Apply a per-parameter override record: every set field replaces the
corresponding attribute. -/
def applyOverride (p : Param) (po : ParamOverride) : Param :=
  { p with
    x_type := po.x_type.getD p.x_type
    x_callname := po.x_callname.getD p.x_callname
    x_retname := po.x_retname.getD p.x_retname
    ignore := po.ignore.getD p.ignore
    force_out := po.force_out.getD p.force_out
    default := match po.default with | some d => some d | none => p.default }

/-- Look up a per-parameter override by parameter name. -/
def lookupPO (pos : List (String × ParamOverride)) (n : String) : Option ParamOverride :=
  match pos with
  | [] => none
  | (k, v) :: rest => if k = n then some v else lookupPO rest n

/-- The name a parameter carries when the buffer maps are consulted:
anonymous parameters receive a positional placeholder first. -/
def finalName (i : Nat) (p : Param) : String :=
  if p.name = "" then "param" ++ toString i else p.name

/-- The fundamental fix-up and placeholder naming applied to a
parameter at the top of the loop iteration. -/
def paramFix (i : Nat) (p0 : Param) : Param :=
  let p1 :=
    if genIntTypes.contains p0.raw_type then { p0 with fundamental := true, unresolved := false }
    else p0
  if p1.name = "" then { p1 with name := "param" ++ toString i } else p1

/-- The computed attributes, per-parameter override and default
resolution applied to a parameter before role classification. -/
def paramPre (fn : Fn) (data : FunctionData) (p2 : Param) : Param :=
  let p3 := { p2 with x_type := p2.enum.getD p2.raw_type, x_callname := p2.name, x_retname := p2.name }
  let p4 :=
    match lookupPO data.param_override p3.name with
    | some po => applyOverride p3 po
    | none => p3
  let p5 := { p4 with x_pyarg := "py::arg(\"" ++ p4.name ++ "\")" }
  match p5.default with
  | some d =>
    let d' := resolveDefault fn d
    { p5 with default := some d', x_pyarg := p5.x_pyarg ++ "=" ++ d' }
  | none => p5

/-- Role classification of a prepared parameter against the popped
buffer-spec entries: the classified parameter, its role string, the
lambda-generation flag, and the generated lambda prelude lines. -/
def classifyParam (bufinfo buflen : Option BufferData) (p6 : Param) :
    Param × String × Bool × List String :=
  match bufinfo with
    | some b =>
      let bname := "__" ++ b.src
      let callname := "(" ++ p6.x_type ++ "*)" ++ bname ++ ".ptr"
      let p7 := { p6 with constant := 1, reference := 1, pointer := 0,
                          x_callname := callname, x_type := "py::buffer" }
      let pre :=
        ["auto " ++ bname ++ " = " ++ p7.name ++ ".request("
           ++ (if b.type = BufferType.IN then "false" else "true") ++ ")",
         b.len ++ " = " ++ bname ++ ".size * " ++ bname ++ ".itemsize"]
      let pre :=
        match b.minsz with
        | some m =>
          if m != 0 then
            pre ++ ["if (" ++ b.len ++ " < " ++ toString m
              ++ ") throw py::value_error(\"" ++ p7.name
              ++ ": minimum buffer size is " ++ toString m ++ "\")"]
          else pre
        | none => pre
      (p7, "in", true, pre)
    | none =>
      match buflen with
      | some b =>
        if p6.pointer != 0 then ({ p6 with x_callname := "&" ++ b.len }, "out", false, [])
        else ({ p6 with x_callname := b.len }, "ignored", false, [])
      | none =>
        if p6.force_out || (p6.pointer != 0 && p6.constant = 0 && p6.fundamental) then
          ({ p6 with x_callname := "&" ++ p6.x_callname }, "out", false, [])
        else if p6.array then
          (if p6.array_size != 0 then
            { p6 with x_type := "std::array<" ++ p6.x_type ++ ", " ++ toString p6.array_size ++ ">",
                      x_callname := p6.x_callname ++ ".data()" }
           else p6, "out", false, [])
        else (p6, "in", false, [])

/-- The final type strings attached to a classified parameter: the
const qualifier, the full type with reference and pointer markers, and
the declaration text. The type recorded with the type-caster registry
is the one before the const qualifier is prepended. -/
def paramFinish (p7 : Param) : Param :=
  let p8 := if p7.constant != 0 then { p7 with x_type := "const " ++ p7.x_type } else p7
  let p9 := { p8 with x_type_full := p8.x_type ++ repChar '&' p8.reference ++ repChar '*' p8.pointer }
  { p9 with x_decl := p9.x_type_full ++ " " ++ p9.name }

/-- Translation of one iteration of the parameter loop of
_function_hook: fundamental fix-up, placeholder naming, computed
attributes, per-parameter override, default resolution, the two
buffer-map pops, role classification, the final type strings, and the
accumulation into the loop state. -/
def processParam (fn : Fn) (data : FunctionData) (i : Nat) (p0 : Param) (st : PState) : PState :=
  let kal :=
    if fn.constructor && p0.reference != 0 then st.x_keepalives ++ [(1, i + 2)]
    else st.x_keepalives
  let p6 := paramPre fn data (paramFix i p0)
  let bufPop := popAssoc p6.name st.bufferParams
  let lenPop := popAssoc p6.name st.buflenParams
  let step := classifyParam bufPop.1 lenPop.1 p6
  let ptype := step.2.1
  let casterType := step.1.x_type
  let pF := paramFinish step.1
  let temps0 := if ptype = "ignored" then st.x_temps ++ [pF] else st.x_temps
  { bufferParams := bufPop.2
    buflenParams := lenPop.2
    params := st.params ++ [pF]
    x_all_params := if pF.ignore then st.x_all_params else st.x_all_params ++ [pF]
    x_in_params :=
      if !pF.ignore && ptype = "in" then st.x_in_params ++ [pF] else st.x_in_params
    x_out_params :=
      if !pF.ignore && ptype = "out" then st.x_out_params ++ [pF] else st.x_out_params
    x_temps := if !pF.ignore && ptype = "out" then temps0 ++ [pF] else temps0
    x_keepalives := kal
    x_genlambda := st.x_genlambda || step.2.2.1
    x_lambda_pre := st.x_lambda_pre ++ step.2.2.2
    types := st.types ++ [casterType] }

/-- The parameter loop of _function_hook. -/
def processParams (fn : Fn) (data : FunctionData) : Nat → List Param → PState → PState
  | _, [], st => st
  | i, p :: ps, st => processParams fn data (i + 1) ps (processParam fn data i p st)

/-- The enriched function record produced by _function_hook. -/
structure FnOut where
  data : FunctionData := {}
  x_name : String := ""
  parameters : List Param := []
  x_all_params : List Param := []
  x_in_params : List Param := []
  x_out_params : List Param := []
  x_temps : List Param := []
  x_rets : List Ret := []
  x_keepalives : List (Nat × Nat) := []
  x_return_value_policy : String := ""
  x_genlambda : Bool := false
  x_callstart : String := ""
  x_lambda_pre : List String := []
  x_lambda_post : List String := []
  x_callend : String := ""
  x_wrap_return : String := ""
  x_doc : String := ""
  x_doc_quoted : List String := []
  types : List String := []
deriving DecidableEq, Inhabited

/-- The primary return entry, present when the return type is not
void. -/
def primaryRets (fn : Fn) : List Ret :=
  if fn.rtnType != "void" then [{ x_retname := "__ret", x_type := fn.rtnType }] else []

/-- The return-statement text generated from the return aggregate. -/
def wrapReturn (rets : List Ret) : String :=
  match rets with
  | [] => ""
  | [r] => if r.x_type != "void" then "return " ++ r.x_retname ++ ";" else ""
  | _ => "return std::make_tuple(" ++ String.intercalate "," (rets.map Ret.x_retname) ++ ");"

/-- The docstring escaping applied before quoting: backslashes then
double quotes. -/
def escapeDoc (doc : String) : String :=
  String.replace (String.replace doc "\\" "\\\\") "\"" "\\\""

/-- The error text raised when buffer source names were not consumed. -/
def bufLeftoverMsg (keys : List String) : String :=
  "incorrect buffer param names \x27" ++ String.intercalate "\x27, \x27" keys ++ "\x27"

/-- Assembly of the enriched record from the loop state: return
aggregation, temporary pre-declarations, final naming, docstrings and
keepalive override, as done after the parameter loop. -/
def mkFnOut (ctx : Hooks) (fn : Fn) (data : FunctionData) (internal : Bool)
    (xn : String) (st : PState) : FnOut :=
  let rets := primaryRets fn ++ st.x_out_params.map (fun p =>
    { x_retname := p.x_retname, x_type := p.x_type })
  let callstart := if fn.rtnType != "void" then "auto __ret =" else ""
  let lambda_pre :=
    st.x_temps.map (fun p => p.x_type ++ " " ++ p.name ++ " = 0") ++ st.x_lambda_pre
  let x_name :=
    if pyTruthyStr data.rename then data.rename.getD ""
    else if data.internal || internal then "_" ++ xn
    else if fn.constructor then "__init__"
    else xn
  let doc0 :=
    match data.doc with
    | some d => d
    | none =>
      match fn.doxygen with
      | some dx => ctx.sphinxify dx
      | none => ""
  let doc := if doc0 != "" then escapeDoc doc0 else doc0
  let doc_quoted :=
    if doc0 != "" then
      (splitKeepEnds (escapeDoc doc0)).map (fun dq => "\"" ++ String.replace dq "\n" "\\n" ++ "\"")
    else []
  let keeps := match data.keepalive with | some k => k | none => st.x_keepalives
  { data := data
    x_name := x_name
    parameters := st.params
    x_all_params := st.x_all_params
    x_in_params := st.x_in_params
    x_out_params := st.x_out_params
    x_temps := st.x_temps
    x_rets := rets
    x_keepalives := keeps
    x_return_value_policy := rvpMap data.return_value_policy
    x_genlambda := st.x_genlambda || !st.x_out_params.isEmpty
    x_callstart := callstart
    x_lambda_pre := lambda_pre
    x_lambda_post := []
    x_callend := ""
    x_wrap_return := wrapReturn rets
    x_doc := doc
    x_doc_quoted := doc_quoted
    types := st.types }

/-- The loop state before the first parameter: the two buffer maps and
the type-caster recording of the raw return type. -/
def initPState (fn : Fn)
    (maps : List (String × BufferData) × List (String × BufferData)) : PState :=
  { bufferParams := maps.1, buflenParams := maps.2, types := [fn.returns] }

/-- The loop state after every parameter of a function has been
processed. -/
def fnLoopState (fn : Fn) (data : FunctionData)
    (maps : List (String × BufferData) × List (String × BufferData)) : PState :=
  processParams fn data 0 fn.parameters (initPState fn maps)

/-- Translation of _function_hook: camel-cased naming, the GIL
adjustment, buffer-spec validation and map construction, the parameter
classification loop, the unconsumed-source-name check, and the assembly
of the enriched record. -/
def functionHook (ctx : Hooks) (fn : Fn) (data0 : FunctionData) (internal : Bool) :
    Except String FnOut :=
  match computeXName ctx data0 fn.name with
  | .error e => .error e
  | .ok xn =>
    let data := adjustGil data0
    match buildBufferMaps [] [] data.buffers with
    | .error e => .error e
    | .ok maps =>
      let st := fnLoopState fn data maps
      if st.bufferParams.isEmpty then .ok (mkFnOut ctx fn data internal xn st)
      else .error (bufLeftoverMsg (st.bufferParams.map Prod.fst))

/-! ### Module-variable helper (_add_subpackage) -/

/-- Translation of _add_subpackage: the module variable a declaration
is registered on, derived from a truthy subpackage tag. -/
def moduleVar (sp : Option String) : String :=
  if pyTruthyStr sp then "pkg_" ++ String.replace (sp.getD "") "." "_" else "m"

/-! ### Free-function entry point (function_hook) -/

/-- Result of the free-function entry point: operators and explicitly
ignored functions are marked and skipped, others are processed. -/
inductive FunctionResult
  | ignoredOp (data : FunctionData)
  | ignoredData (data : FunctionData)
  | done (x_module_var : String) (out : FnOut)
deriving Inhabited

/-- Translation of function_hook: operators are ignored outright, the
override registry is consulted with the overload signature, ignored
functions are skipped, and the rest go through _function_hook. -/
def functionHookTop (ctx : Hooks) (fn : Fn) : Except String FunctionResult :=
  if fn.operator then .ok (.ignoredOp { ignore := true })
  else
    let sig := getFunctionSignature fn
    let data := ctx.getFunctionData fn.name sig
    if data.ignore then .ok (.ignoredData data)
    else
      match functionHook ctx fn data false with
      | .error e => .error e
      | .ok out => .ok (.done (moduleVar data.subpackage) out)

/-! ### Class processing (class_hook) -/

/-- The mangling of qualified names into generated identifiers: the
characters of _qualname_bad are each replaced by an underscore. -/
def qualnameTrans (s : String) : String :=
  ⟨s.data.map (fun c => if c = ':' || c = '<' || c = '>' || c = '=' then '_' else c)⟩

/-- The qualified override-registry key of a class, obtained by walking
the enclosing-class chain. -/
def clsKey (cls : ClsRecord) : String :=
  cls.parents.foldl (fun k pn => pn ++ "::" ++ k) cls.name

/-- Look up a base-qualname override. -/
def lookupStr (l : List (String × String)) (n : String) : Option String :=
  match l with
  | [] => none
  | (k, v) :: rest => if k = n then some v else lookupStr rest n

/-- Translation of the inheritance update: a truthy explicit qualname
override wins, an unqualified base name is assumed to live in the
namespace of the class, a qualified one is taken as given. -/
def qualifyBase (cls : ClsRecord) (cd : ClassData) (b : BaseRec) : BaseRec :=
  let bq := lookupStr cd.base_qualnames b.cls
  let xq :=
    if pyTruthyStr bq then bq.getD ""
    else if !strContains "::" b.cls then cls.ns ++ "::" ++ b.cls
    else b.cls
  { b with x_qualname := xq, x_qualname_ := qualnameTrans xq }

/-- Translation of the x_inherits filter: each base pops its name from
the ignored-bases map and is dropped when the pop hit; the unconsumed
keys remain, in order. -/
def filterIgnoredBases : List BaseRec → List String → List BaseRec × List String
  | [], ib => ([], ib)
  | b :: bs, ib =>
    if ib.contains b.cls then
      let r := filterIgnoredBases bs (ib.erase b.cls)
      (r.1, r.2)
    else
      let r := filterIgnoredBases bs ib
      (b :: r.1, r.2)

/-- The configuration-error text for unmatched ignored-base names. -/
def ignoredBasesMsg (clsName : String) (invalid : List String) (bases : List String) : String :=
  clsName ++ ": ignored_bases contains non-existant bases "
    ++ String.intercalate ", " invalid
    ++ "; valid bases are " ++ String.intercalate ", " bases

/-- Process the public enums nested in a class, in order. -/
def processClsEnums (ctx : Hooks) (clsName : String) (key : String) :
    List EnumRec → Except String (List EnumOut)
  | [] => .ok []
  | e :: es =>
    match enumHook ctx e (ctx.getClsEnumData e.name key) with
    | .error m => .error m
    | .ok eo =>
      match processClsEnums ctx clsName key es with
      | .error m => .error m
      | .ok rest => .ok (eo :: rest)

/-- Whether the first parameter of a method is the enclosing class
itself, the parser identity test marking copy and move constructors. -/
def firstParamIsCls (fn : Fn) (clsId : Nat) : Bool :=
  match fn.parameters with
  | [] => false
  | p :: _ => p.cls == some clsId

/-- State accumulated over the method loop. -/
structure MState where
  has_constructor : Bool := false
  is_polymorphic : Bool := false
  processed : List FnOut := []
  types : List String := []
deriving Inhabited

/-- Translation of the method loop of class_hook for one access level:
constructor and polymorphism scanning happens for every method, then
operators, destructors and copy and move constructors are skipped,
private methods are dropped, and the rest run through _function_hook
with errors rewrapped under the qualified class-and-method path. -/
def processMethodsA (ctx : Hooks) (clsId : Nat) (key : String) (cd : ClassData)
    (access : String) : List Fn → MState → Except String MState
  | [], st => .ok st
  | fn :: fns, st =>
    let st := { st with
      has_constructor := st.has_constructor || fn.constructor,
      is_polymorphic := st.is_polymorphic || fn.override || fn.virtual }
    if fn.operator || fn.destructor
        || (fn.constructor && !fn.parameters.isEmpty && firstParamIsCls fn clsId) then
      processMethodsA ctx clsId key cd access fns st
    else if access != "private" then
      let internal := access != "public"
      let sig := getFunctionSignature fn
      let md := ctx.getMethodData fn.name sig key
      if md.ignore then processMethodsA ctx clsId key cd access fns st
      else
        match functionHook ctx fn md internal with
        | .error _ => .error (key ++ "::" ++ fn.name)
        | .ok out =>
          processMethodsA ctx clsId key cd access fns
            { st with processed := st.processed ++ [out], types := st.types ++ out.types }
    else processMethodsA ctx clsId key cd access fns st

/-- The method loop over the three access levels in order. -/
def processMethods (ctx : Hooks) (clsId : Nat) (key : String) (cd : ClassData)
    (cls : ClsRecord) (st : MState) : Except String MState :=
  match processMethodsA ctx clsId key cd "public" cls.methodsPublic st with
  | .error e => .error e
  | .ok st1 =>
    match processMethodsA ctx clsId key cd "protected" cls.methodsProtected st1 with
    | .error e => .error e
    | .ok st2 => processMethodsA ctx clsId key cd "private" cls.methodsPrivate st2

/-- The enriched property record produced by the attribute loop. -/
structure PropOut where
  name : String := ""
  ignored : Bool := false
  x_name : String := ""
  x_readonly : Bool := false
deriving DecidableEq, Inhabited

/-- Translation of the class-attribute loop for one access level:
private attributes (by the substring test of the source) and protected
attributes of trampoline-less classes are ignored; the rest are named
and given the read-only determination. -/
def processPropsA (ctx : Hooks) (key : String) (has_trampoline : Bool)
    (access : String) : List PropRec → List PropOut × List String
  | [] => ([], [])
  | v :: vs =>
    let r := processPropsA ctx key has_trampoline access vs
    if listIsInfix access.data "private".data
        || (access = "protected" && !has_trampoline) then
      ({ name := v.name, ignored := true } :: r.1, r.2)
    else
      let pd := ctx.getClsPropData v.name key
      let x_name :=
        if pyTruthyStr pd.rename then pd.rename.getD ""
        else if access = "public" then v.name else "_" ++ v.name
      let x_readonly :=
        match pd.access with
        | .AUTOMATIC => !v.fundamental && v.reference = 0
        | .READONLY => true
        | .READWRITE => false
      ({ name := v.name, x_name := x_name, x_readonly := x_readonly } :: r.1,
       v.raw_type :: r.2)

/-- The attribute loop over the three access levels in order. -/
def processProps (ctx : Hooks) (key : String) (has_trampoline : Bool)
    (cls : ClsRecord) : List PropOut × List String :=
  let a := processPropsA ctx key has_trampoline "public" cls.propsPublic
  let b := processPropsA ctx key has_trampoline "protected" cls.propsProtected
  let c := processPropsA ctx key has_trampoline "private" cls.propsPrivate
  (a.1 ++ b.1 ++ c.1, a.2 ++ b.2 ++ c.2)

/-- The enriched class record produced by class_hook. -/
structure ClassOut where
  key : String := ""
  data : ClassData := {}
  x_module_var : String := ""
  enums : List EnumOut := []
  x_inherits : List BaseRec := []
  hierarchyEntry : List String := []
  x_qualname : String := ""
  x_qualname_ : String := ""
  x_has_trampoline : Bool := false
  x_trampoline_name : Option String := none
  x_has_constructor : Bool := false
  x_varname : String := ""
  x_name : String := ""
  methodsOut : List FnOut := []
  props : List PropOut := []
  types : List String := []
deriving Inhabited

/-- Result of class_hook: classes nested in a private section or
ignored by configuration are skipped, the rest are enriched. -/
inductive ClassResult
  | ignored
  | done (out : ClassOut)
deriving Inhabited

/-- Translation of class_hook: private nested classes and ignored
classes are skipped; nested public enums are fixed up; the declared
bases are qualified; ignored_bases is validated by consumption with a
configuration error naming the unconsumed and the declared names; the
hierarchy entry is registered; polymorphism, constructor presence and
trampoline necessity are computed over the method loop; properties are
filtered by access and trampoline presence; and the computed naming
attributes are attached. -/
def classHook (ctx : Hooks) (cls : ClsRecord) : Except String ClassResult :=
  if !cls.parents.isEmpty && cls.access_in_parent = "private" then .ok .ignored
  else
    let key := clsKey cls
    let cd := ctx.getClassData key
    if cd.ignore then .ok .ignored
    else
      match processClsEnums ctx cls.name key cls.enumsPublic with
      | .error e => .error e
      | .ok enums =>
        let inh := cls.inherits.map (qualifyBase cls cd)
        let fib := filterIgnoredBases inh (pyDedup [] cd.ignored_bases)
        if !fib.2.isEmpty then
          .error (ignoredBasesMsg cls.name fib.2 (cls.inherits.map BaseRec.cls))
        else
          let x_qualname := cls.ns ++ "::" ++ cls.name
          let entry := fib.1.map BaseRec.x_qualname ++ cd.force_depends
          let st0 : MState :=
            { is_polymorphic := cd.is_polymorphic || !cls.inherits.isEmpty }
          match processMethods ctx cls.id key cd cls st0 with
          | .error e => .error e
          | .ok mst =>
            let has_trampoline :=
              mst.is_polymorphic && !cls.final && !cd.force_no_trampoline
            let pr := processProps ctx key has_trampoline cls
            .ok (.done
              { key := key
                data := cd
                x_module_var := moduleVar cd.subpackage
                enums := enums
                x_inherits := fib.1
                hierarchyEntry := entry
                x_qualname := x_qualname
                x_qualname_ := qualnameTrans x_qualname
                x_has_trampoline := has_trampoline
                x_trampoline_name :=
                  if has_trampoline then
                    some ("rpygen::Py" ++ qualnameTrans x_qualname ++ "<" ++ cls.name ++ ">")
                  else none
                x_has_constructor := mst.has_constructor
                x_varname := "cls_" ++ cls.name
                x_name := setName ctx cls.name cd.rename
                methodsOut := mst.processed
                props := pr.1
                types := mst.types ++ pr.2 })

/-! ### Derived definitions used by the claim statements -/

/-- The names under which the parameters of a function consult the
buffer maps, in order: the declared names, with positional placeholder
names for anonymous parameters. -/
def finalNames (i : Nat) : List Param → List String
  | [] => []
  | p :: ps => finalName i p :: finalNames (i + 1) ps

/-- The configured buffer source names that no parameter consumes, in
map order. -/
def unconsumedSrcKeys (bs : List BufferData) (params : List Param) : List String :=
  ((bufferAssocs bs).1.map Prod.fst).filter (fun k => !((finalNames 0 params).contains k))

/-- Strip one leading underscore from a character list, when present. -/
def stripLeadU : List Char → List Char
  | '_' :: cs => cs
  | l => l

/-- The enumerator short name as the specification words describe it:
strip the prefix when it matches, then strip one leading underscore if
one remains; otherwise leave the name unchanged. Stated separately from
the translated code so the two can be compared. -/
def specEnumValName (vp : String) (name : String) : String :=
  if strStartsWith vp name then ⟨stripLeadU (name.data.drop (strLen vp))⟩ else name

/-- The output record of a successful function-hook run, with a default
for the error case; used to name concrete outputs in closed
statements. -/
def fnOutOf (e : Except String FnOut) : FnOut :=
  match e with
  | .ok o => o
  | .error _ => default

/-- The output record of a successful class-hook run, with a default
for the other cases; used to name concrete outputs in closed
statements. -/
def classOutOf (e : Except String ClassResult) : ClassOut :=
  match e with
  | .ok (.done o) => o
  | _ => default

/-- The output record of a successful enum-hook run, with a default for
the error case. -/
def enumOutOf (e : Except String EnumOut) : EnumOut :=
  match e with
  | .ok o => o
  | .error _ => default

/-! ### Concrete inputs used by witnesses and counterexamples -/

/-- A context with no configuration. -/
def ctx0 : Hooks := {}

/-- A context stripping the prefix Get from names. -/
def ctxStripGet : Hooks := { strip_prefixes := ["Get"] }

/-- The scenario function int GetValue(uint8_t* buf, int* len). -/
def fnGetValue : Fn := {
  name := "GetValue"
  returns := "int"
  rtnType := "int"
  parameters := [
    { name := "buf", raw_type := "uint8_t", pointer := 1, fundamental := true },
    { name := "len", raw_type := "int", pointer := 1, fundamental := true }] }

/-- The scenario buffer configuration source buf, length len, read
direction. -/
def dataGetValue : FunctionData := { buffers := [{ src := "buf", len := "len", type := .IN }] }

/-- The GetValue scenario output. -/
def outGetValue : FnOut := fnOutOf (functionHook ctx0 fnGetValue dataGetValue false)

/-- A function void f(void* p) whose parameter is forced out. -/
def fnVoidOut : Fn := {
  name := "f"
  returns := "void"
  rtnType := "void"
  parameters := [{ name := "p", raw_type := "void", pointer := 1, force_out := true }] }

/-- The enriched record of the forced-out void-pointer function. -/
def outVoidOut : FnOut := fnOutOf (functionHook ctx0 fnVoidOut {} false)

/-- A function int f2(int* v) with a natural out parameter. -/
def fnIntOut : Fn := {
  name := "f2"
  returns := "int"
  rtnType := "int"
  parameters := [{ name := "v", raw_type := "int", pointer := 1, fundamental := true }] }

/-- The enriched record of the natural out-parameter function. -/
def outIntOut : FnOut := fnOutOf (functionHook ctx0 fnIntOut {} false)

/-- A one-buffer function void g(uint8_t* buf). -/
def fnBufOnly : Fn := {
  name := "g"
  returns := "void"
  rtnType := "void"
  parameters := [{ name := "buf", raw_type := "uint8_t", pointer := 1, fundamental := true }] }

/-- A buffer spec whose length name matches no parameter of fnBufOnly. -/
def dataLenUnmatched : FunctionData :=
  { buffers := [{ src := "buf", len := "nosuch", type := .IN }] }

/-- A buffer spec whose source name matches no parameter of fnBufOnly. -/
def dataSrcUnmatched : FunctionData :=
  { buffers := [{ src := "nosrc", len := "buf", type := .IN }] }

/-- A buffer spec using one name for both ends. -/
def dataSrcEqLen : FunctionData :=
  { buffers := [{ src := "b", len := "b", type := .IN }] }

/-- The function GetFoo with no rename configured. -/
def fnGetFoo : Fn := { name := "GetFoo", returns := "void", rtnType := "void" }

/-- The enriched record of GetFoo under the Get prefix strip. -/
def outGetFoo : FnOut := fnOutOf (functionHook ctxStripGet fnGetFoo {} false)

/-- The scenario enum Color with values kColorRed and kColorBlue. -/
def enColor : EnumRec :=
  { name := some "Color", values := [{ name := "kColorRed" }, { name := "kColorBlue" }] }

/-- The Color enum normalized with the explicit value prefix kColor. -/
def outColorPfx : EnumOut :=
  enumOutOf (enumHook ctx0 enColor { value_prefix := some "kColor" })

/-- The Color enum normalized with no explicit prefix. -/
def outColorDefault : EnumOut := enumOutOf (enumHook ctx0 enColor {})

/-- An enum E one of whose enumerators is named exactly E. -/
def enSelfNamed : EnumRec := { name := some "E", values := [{ name := "E" }] }

/-- A class C with bases A and B, one ignored base B, and a forced
dependency edge X, carrying a virtual method. -/
def ctxForceDepends : Hooks :=
  { getClassData := fun _ => { ignored_bases := ["B"], force_depends := ["X"] } }

/-- The class record of the C1 and C6 scenarios. -/
def clsTwoBases : ClsRecord := {
  name := "C"
  ns := "ns"
  inherits := [{ cls := "A" }, { cls := "B" }]
  methodsPublic := [{ name := "m", virtual := true, rtnType := "void", returns := "void" }] }

/-- The enriched class record of the two-base scenario. -/
def outTwoBases : ClassOut := classOutOf (classHook ctxForceDepends clsTwoBases)

/-- A context whose ignored_bases override names a base that is not
declared. -/
def ctxBadIgnoredBase : Hooks :=
  { getClassData := fun _ => { ignored_bases := ["Other"] } }

/-- The scenario class Derived with the single base Base. -/
def clsDerived : ClsRecord := {
  name := "Derived"
  ns := "ns"
  inherits := [{ cls := "Base" }]
  methodsPublic := [{ name := "m", virtual := true, rtnType := "void", returns := "void" }] }

/-- A caster table mapping the type T to an empty include path. -/
def ctxEmptyCaster : Hooks := { casters := fun s => if s = "T" then some "" else none }

/-- A caster table mapping the type Foo to the include foo.h. -/
def ctxFooCaster : Hooks := { casters := fun s => if s = "Foo" then some "foo.h" else none }

/-- The lower-leading camel-case conversion as the amended claim words
it: lowercase the first character of the (possibly prefix-stripped)
name unless the first two characters are both uppercase; stated
separately from the translated code so the two can be compared. -/
def pyCamel (s : String) : String :=
  if pyIsUpper (strTake s 2) then s
  else
    match s.data with
    | [] => s
    | c :: cs => ⟨c.toLower :: cs⟩

/-! ### Helper lemmas -/

theorem pyDedup_cons_eq (seen : List String) (a : String) (l : List String) :
    pyDedup seen (a :: l) =
      if a ∈ seen then pyDedup seen l else a :: pyDedup (a :: seen) l := by
  simp [pyDedup]

theorem mem_pyDedup (x : String) : ∀ (seen l : List String),
    x ∈ pyDedup seen l ↔ x ∈ l ∧ ¬ x ∈ seen := by
  intro seen l
  induction l generalizing seen with
  | nil => simp [pyDedup]
  | cons a l ih =>
    rw [pyDedup_cons_eq]
    by_cases ha : a ∈ seen
    · rw [if_pos ha, ih]
      simp only [List.mem_cons]
      constructor
      · rintro ⟨hl, hs⟩
        exact ⟨Or.inr hl, hs⟩
      · rintro ⟨rfl | hl, hs⟩
        · exact absurd ha hs
        · exact ⟨hl, hs⟩
    · rw [if_neg ha]
      simp only [List.mem_cons, ih, List.mem_cons]
      constructor
      · rintro (rfl | ⟨hl, hs⟩)
        · exact ⟨Or.inl rfl, ha⟩
        · exact ⟨Or.inr hl, fun hx => hs (Or.inr hx)⟩
      · rintro ⟨rfl | hl, hs⟩
        · exact Or.inl rfl
        · by_cases hxa : x = a
          · exact Or.inl hxa
          · refine Or.inr ⟨hl, fun hx => ?_⟩
            rcases hx with h | h
            · exact absurd h hxa
            · exact hs h

theorem nodup_pyDedup : ∀ (seen l : List String), (pyDedup seen l).Nodup := by
  intro seen l
  induction l generalizing seen with
  | nil => simp [pyDedup]
  | cons a l ih =>
    rw [pyDedup_cons_eq]
    by_cases ha : a ∈ seen
    · rw [if_pos ha]
      exact ih seen
    · rw [if_neg ha]
      refine List.nodup_cons.mpr ⟨fun hx => ?_, ih (a :: seen)⟩
      exact ((mem_pyDedup a (a :: seen) l).mp hx).2 (List.mem_cons_self a seen)

theorem getTypeCasterIncludes_sorted (ctx : Hooks) (l : List String) :
    (getTypeCasterIncludes ctx l).Sorted (· ≤ ·) :=
  List.sorted_insertionSort _ _

theorem getTypeCasterIncludes_nodup (ctx : Hooks) (l : List String) :
    (getTypeCasterIncludes ctx l).Nodup :=
  (List.perm_insertionSort _ _).nodup_iff.mpr (nodup_pyDedup [] _)

theorem mem_getTypeCasterIncludes (ctx : Hooks) (l : List String) (s : String) :
    s ∈ getTypeCasterIncludes ctx l
      ↔ ∃ t, t ∈ l ∧ truthyCaster ctx (stripTmpl t) = some s := by
  rw [getTypeCasterIncludes]
  rw [(List.perm_insertionSort (· ≤ ·) _).mem_iff]
  rw [mem_pyDedup]
  simp [List.mem_filterMap]

theorem stripLeadU_cons (c : Char) (cs : List Char) :
    stripLeadU (c :: cs) = if c = '_' then cs else c :: cs := by
  by_cases h : c = '_'
  · subst h
    simp [stripLeadU]
  · rw [if_neg h]
    unfold stripLeadU
    split
    · rename_i heq
      injection heq with h1 h2
      exact absurd h1 h
    · rfl

theorem normEnumValName_error_msg (vp : Option String) (n : String) (e : String)
    (h : normEnumValName vp n = .error e) : e = "string index out of range" := by
  match vp with
  | none => simp [normEnumValName] at h
  | some pfx =>
    simp only [normEnumValName] at h
    by_cases hc : (pfx != "" && strStartsWith pfx n) = true
    · rw [if_pos hc] at h
      match hd : (strDrop n (strLen pfx)).data with
      | [] => rw [hd] at h; exact (Except.error.inj h).symm
      | c :: cs => rw [hd] at h; exact absurd h (by simp)
    · rw [if_neg hc] at h
      exact absurd h (by simp)

theorem normEnumValName_ok_spec (pfx : String) (hp : pfx ≠ "") (n m : String)
    (h : normEnumValName (some pfx) n = .ok m) : m = specEnumValName pfx n := by
  simp only [normEnumValName] at h
  rw [specEnumValName]
  by_cases hs : strStartsWith pfx n
  · have hc : (pfx != "" && strStartsWith pfx n) = true := by simp [hs, hp]
    rw [if_pos hc] at h
    rw [if_pos hs]
    match hd : (strDrop n (strLen pfx)).data with
    | [] => rw [hd] at h; exact absurd h (by simp)
    | c :: cs =>
      rw [hd] at h
      have hd' : n.data.drop (strLen pfx) = c :: cs := hd
      rw [hd', stripLeadU_cons]
      have hinj := Except.ok.inj h
      by_cases hu : c = '_'
      · rw [if_pos hu]
        rw [if_pos hu] at hinj
        exact hinj.symm
      · rw [if_neg hu]
        rw [if_neg hu] at hinj
        exact hinj.symm
  · have hc : ¬ (pfx != "" && strStartsWith pfx n) = true := by simp [hs]
    rw [if_neg hc] at h
    rw [if_neg hs]
    exact (Except.ok.inj h).symm

theorem normEnumValName_self_error (pfx : String) (hp : pfx ≠ "") :
    normEnumValName (some pfx) pfx = .error "string index out of range" := by
  simp only [normEnumValName]
  have hs : strStartsWith pfx pfx = true := by
    simp [strStartsWith]
  rw [if_pos (by simp [hs, hp])]
  have hd : (strDrop pfx (strLen pfx)).data = [] := by
    simp [strDrop, strLen]
  rw [hd]

theorem enumValues_ok_spec (pfx : String) (hp : pfx ≠ "") :
    ∀ (vs ws : List EnumVal), enumValues (some pfx) vs = .ok ws →
      ws.map EnumVal.x_name = vs.map (fun v => specEnumValName pfx v.name) := by
  intro vs
  induction vs with
  | nil =>
    intro ws h
    simp only [enumValues] at h
    cases Except.ok.inj h
    rfl
  | cons v vs ih =>
    intro ws h
    simp only [enumValues] at h
    match hn : normEnumValName (some pfx) v.name with
    | .error e => rw [hn] at h; exact absurd h (by simp)
    | .ok n =>
      rw [hn] at h
      match hr : enumValues (some pfx) vs with
      | .error e => rw [hr] at h; exact absurd h (by simp)
      | .ok rest =>
        rw [hr] at h
        cases Except.ok.inj h
        simp only [List.map_cons]
        rw [ih rest hr]
        rw [normEnumValName_ok_spec pfx hp v.name n hn]

theorem enumValues_error_of_self (pfx : String) (hp : pfx ≠ "") :
    ∀ (vs : List EnumVal), (∃ v, v ∈ vs ∧ v.name = pfx) →
      enumValues (some pfx) vs = .error "string index out of range" := by
  intro vs
  induction vs with
  | nil =>
    rintro ⟨v, hv, _⟩
    exact absurd hv (List.not_mem_nil v)
  | cons v vs ih =>
    rintro ⟨w, hw, hwn⟩
    simp only [enumValues]
    match hn : normEnumValName (some pfx) v.name with
    | .error e =>
      rw [normEnumValName_error_msg (some pfx) v.name e hn]
    | .ok n =>
      rcases List.mem_cons.mp hw with rfl | hw'
      · rw [hwn] at hn
        rw [normEnumValName_self_error pfx hp] at hn
        exact absurd hn (by simp)
      · rw [ih ⟨w, hw', hwn⟩]

theorem effValuePfx_ne (d : EnumData) (ename : String) (hne : ename ≠ "") :
    effValuePfx d ename ≠ "" := by
  match hd : d.value_prefix with
  | none =>
    simp only [effValuePfx, hd]
    exact hne
  | some p =>
    simp only [effValuePfx, hd]
    by_cases hp : p = ""
    · rw [if_pos hp]
      exact hne
    · rw [if_neg hp]
      exact hp

/-! ### Claim C8 -/

/-- C8 counterexample: for the enum E whose enumerator is named exactly
E (the effective default prefix), the claimed normalization procedure
would produce the empty short name, but the hook instead fails with an
out-of-range string index, so the claimed total computation of every
enumerator name is false. -/
theorem C8_counterexample :
    enumHook ctx0 enSelfNamed {} = Except.error "string index out of range"
      ∧ effValuePfx {} "E" = "E" := by
  constructor
  · rfl
  · rfl

/-- C8 (amended): for every named enum whose processing succeeds, each
enumerator short name equals the specified normalization (strip the
effective prefix when it matches, then one leading underscore if one
remains, otherwise keep the name); the amendment restricts the claim to
enums where no enumerator name equals the effective prefix exactly,
since that case fails with an out-of-range index instead of producing
the empty short name. -/
theorem C8_enum_value_names (ctx : Hooks) (en : EnumRec) (d : EnumData) (ename : String)
    (out : EnumOut) (hn : en.name = some ename) (hne : ename ≠ "")
    (h : enumHook ctx en d = .ok out) :
    out.values.map EnumVal.x_name
        = en.values.map (fun v => specEnumValName (effValuePfx d ename) v.name)
      ∧ out.x_name = some (setName ctx ename d.rename) := by
  simp only [enumHook, hn] at h
  rw [if_neg hne] at h
  match hr : enumValues (some (effValuePfx d ename)) en.values with
  | .error e => rw [hr] at h; exact absurd h (by simp)
  | .ok vs =>
    rw [hr] at h
    cases Except.ok.inj h
    exact ⟨enumValues_ok_spec _ (effValuePfx_ne d ename hne) _ _ hr, rfl⟩

/-- C8 witness: the Color scenario with explicit value prefix kColor
yields the short names Red and Blue, and with no explicit prefix the
names pass through unchanged. -/
theorem C8_witness :
    outColorPfx.values.map EnumVal.x_name = ["Red", "Blue"]
      ∧ outColorDefault.values.map EnumVal.x_name = ["kColorRed", "kColorBlue"] := by
  constructor
  · have h := C8_enum_value_names ctx0 enColor { value_prefix := some "kColor" } "Color"
      outColorPfx rfl (by decide) rfl
    exact h.1.trans (by decide)
  · have h := C8_enum_value_names ctx0 enColor {} "Color" outColorDefault rfl (by decide) rfl
    exact h.1.trans (by decide)

/-! ### Claim C10 -/

/-- C10: enum normalization is only defined for enumerators strictly
extending the applicable value prefix: when a named enum has an
enumerator whose full name equals the effective value prefix, the
prefix strip leaves the empty string, the leading-underscore check
indexes character 0 of it, and the hook fails with an out-of-range
index instead of producing a short name. -/
theorem C10_enum_exact_prefix_crash (ctx : Hooks) (en : EnumRec) (d : EnumData)
    (ename : String) (hn : en.name = some ename) (hne : ename ≠ "")
    (hv : ∃ v, v ∈ en.values ∧ v.name = effValuePfx d ename) :
    enumHook ctx en d = .error "string index out of range" := by
  simp only [enumHook, hn]
  rw [if_neg hne, enumValues_error_of_self _ (effValuePfx_ne d ename hne) _ hv]

/-- C10 witness: the enum E with the single enumerator E fails with the
out-of-range index error. -/
theorem C10_witness :
    enumHook ctx0 enSelfNamed {} = Except.error "string index out of range" :=
  C10_enum_exact_prefix_crash ctx0 enSelfNamed {} "E" rfl (by decide)
    ⟨{ name := "E" }, by decide, by decide⟩

/-! ### Claim C9 -/

/-- C9 counterexample: the type T has a table entry (the empty string),
so the claimed resolution would include its path, but the resolver
drops falsy entries and returns the empty include list; the claim as
stated is therefore false for tables carrying an empty path. -/
theorem C9_counterexample :
    getTypeCasterIncludes ctxEmptyCaster ["T"] = []
      ∧ ctxEmptyCaster.casters (stripTmpl "T") = some "" := by
  constructor
  · rfl
  · rfl

/-- C9 (amended): resolving type-caster includes returns the sorted
deduplicated list of the truthy table entries of the recorded types
with template suffixes stripped, omitting types whose entry is missing
or empty; the result depends only on the membership of the recorded
multiset, so recording order and multiplicity are irrelevant. -/
theorem C9_caster_includes (ctx : Hooks) (l1 l2 : List String)
    (hmem : ∀ s, s ∈ l1 ↔ s ∈ l2) :
    getTypeCasterIncludes ctx l1 = getTypeCasterIncludes ctx l2
      ∧ (∀ s, s ∈ getTypeCasterIncludes ctx l1
          ↔ ∃ t, t ∈ l1 ∧ truthyCaster ctx (stripTmpl t) = some s)
      ∧ (getTypeCasterIncludes ctx l1).Sorted (· ≤ ·)
      ∧ (getTypeCasterIncludes ctx l1).Nodup := by
  refine ⟨?_, fun s => mem_getTypeCasterIncludes ctx l1 s,
    getTypeCasterIncludes_sorted ctx l1, getTypeCasterIncludes_nodup ctx l1⟩
  apply List.eq_of_perm_of_sorted _ (getTypeCasterIncludes_sorted ctx l1)
    (getTypeCasterIncludes_sorted ctx l2)
  apply (List.perm_ext_iff_of_nodup (getTypeCasterIncludes_nodup ctx l1)
    (getTypeCasterIncludes_nodup ctx l2)).mpr
  intro a
  rw [mem_getTypeCasterIncludes, mem_getTypeCasterIncludes]
  constructor
  · rintro ⟨t, ht, hc⟩
    exact ⟨t, (hmem t).mp ht, hc⟩
  · rintro ⟨t, ht, hc⟩
    exact ⟨t, (hmem t).mpr ht, hc⟩

/-- C9 witness: recording Foo with template arguments twice alongside
an unknown type, in either order and multiplicity, resolves to the same
single include. -/
theorem C9_witness :
    getTypeCasterIncludes ctxFooCaster ["Foo<int>", "Bar", "Foo<int>"]
        = getTypeCasterIncludes ctxFooCaster ["Bar", "Foo<int>"]
      ∧ getTypeCasterIncludes ctxFooCaster ["Foo<int>", "Bar", "Foo<int>"] = ["foo.h"] := by
  have h := C9_caster_includes ctxFooCaster ["Foo<int>", "Bar", "Foo<int>"]
    ["Bar", "Foo<int>"] (by
      intro s
      simp only [List.mem_cons, List.not_mem_nil, or_false]
      tauto)
  exact ⟨h.1, by decide⟩

theorem paramFix_aux_name (p : Param) :
    (if genIntTypes.contains p.raw_type then
        { p with fundamental := true, unresolved := false }
      else p).name = p.name := by
  split
  · rfl
  · rfl

theorem paramFix_name (i : Nat) (p : Param) : (paramFix i p).name = finalName i p := by
  rw [paramFix, finalName, paramFix_aux_name]
  by_cases hn : p.name = ""
  · rw [if_pos hn, if_pos hn]
  · rw [if_neg hn, if_neg hn]
    exact paramFix_aux_name p

theorem paramPre_name (fn : Fn) (data : FunctionData) (q : Param) :
    (paramPre fn data q).name = q.name := by
  rw [paramPre]
  match hlo : lookupPO data.param_override q.name with
  | some po =>
    simp only [hlo]
    split
    · rfl
    · rfl
  | none =>
    simp only [hlo]
    split
    · rfl
    · rfl

theorem popAssoc_snd (k : String) : ∀ (l : List (String × BufferData)),
    (l.map Prod.fst).Nodup →
    (popAssoc k l).2 = l.filter (fun kv => kv.1 != k) := by
  intro l
  induction l with
  | nil => intro _; rfl
  | cons kv rest ih =>
    intro h
    rw [List.map_cons, List.nodup_cons] at h
    rw [popAssoc]
    by_cases hk : kv.1 = k
    · rw [if_pos hk]
      rw [List.filter_cons]
      have hf : (kv.1 != k) = false := by simp [hk]
      rw [hf]
      simp only [Bool.false_eq_true, if_neg, ite_false]
      symm
      apply List.filter_eq_self.mpr
      intro a ha
      have ham : a.1 ∈ rest.map Prod.fst := List.mem_map_of_mem Prod.fst ha
      have hne : a.1 ≠ kv.1 := fun he => h.1 (he ▸ ham)
      simp [hk ▸ hne]
    · rw [if_neg hk]
      rw [List.filter_cons]
      have ht : (kv.1 != k) = true := by simp [hk]
      rw [ht]
      simp only [if_pos]
      rw [ih h.2]

theorem processParam_bufferParams (fn : Fn) (data : FunctionData) (i : Nat) (p : Param)
    (st : PState) :
    (processParam fn data i p st).bufferParams
      = (popAssoc (finalName i p) st.bufferParams).2 := by
  simp only [processParam]
  rw [paramPre_name, paramFix_name]

theorem processParam_append (fn : Fn) (data : FunctionData) (i : Nat) (p : Param)
    (st : PState) :
    ∃ q, (processParam fn data i p st).params = st.params ++ [q]
      ∧ ((processParam fn data i p st).x_out_params = st.x_out_params
          ∨ (processParam fn data i p st).x_out_params = st.x_out_params ++ [q]) := by
  simp only [processParam]
  refine ⟨_, rfl, ?_⟩
  split
  · exact Or.inr rfl
  · exact Or.inl rfl

theorem nodup_keys_filter (l : List (String × BufferData)) (pred : String × BufferData → Bool)
    (h : (l.map Prod.fst).Nodup) : ((l.filter pred).map Prod.fst).Nodup := by
  have hs : (l.filter pred).Sublist l := List.filter_sublist l
  exact (hs.map Prod.fst).nodup h

theorem processParams_bufferParams (fn : Fn) (data : FunctionData) :
    ∀ (ps : List Param) (i : Nat) (st : PState),
    (st.bufferParams.map Prod.fst).Nodup →
    (processParams fn data i ps st).bufferParams
      = st.bufferParams.filter (fun kv => !((finalNames i ps).contains kv.1)) := by
  intro ps
  induction ps with
  | nil =>
    intro i st _
    simp [processParams, finalNames]
  | cons p ps ih =>
    intro i st h
    rw [processParams]
    have hstep := processParam_bufferParams fn data i p st
    have hpop := popAssoc_snd (finalName i p) st.bufferParams h
    have hnodup2 : ((processParam fn data i p st).bufferParams.map Prod.fst).Nodup := by
      rw [hstep, hpop]
      exact nodup_keys_filter _ _ h
    rw [ih (i + 1) _ hnodup2, hstep, hpop, List.filter_filter]
    apply List.filter_congr
    intro kv _
    simp only [finalNames, List.contains_cons, Bool.not_or, bne]
    rw [Bool.and_comm]

theorem processParams_append (fn : Fn) (data : FunctionData) :
    ∀ (ps : List Param) (i : Nat) (st : PState),
    ∃ new newOut, (processParams fn data i ps st).params = st.params ++ new
      ∧ (processParams fn data i ps st).x_out_params = st.x_out_params ++ newOut
      ∧ newOut.Sublist new := by
  intro ps
  induction ps with
  | nil =>
    intro i st
    exact ⟨[], [], by simp [processParams], by simp [processParams], List.nil_sublist []⟩
  | cons p ps ih =>
    intro i st
    obtain ⟨q, hq, hout⟩ := processParam_append fn data i p st
    obtain ⟨new, newOut, h1, h2, h3⟩ := ih (i + 1) (processParam fn data i p st)
    rcases hout with hout | hout
    · refine ⟨q :: new, newOut, ?_, ?_, h3.cons q⟩
      · rw [processParams, h1, hq]
        simp
      · rw [processParams, h2, hout]
    · refine ⟨q :: new, q :: newOut, ?_, ?_, h3.cons₂ q⟩
      · rw [processParams, h1, hq]
        simp
      · rw [processParams, h2, hout]
        simp

theorem findDupMsg_none_of_ne (bs : List BufferData) (h : ∀ b ∈ bs, b.src ≠ b.len) :
    findDupMsg bs = none := by
  induction bs with
  | nil => rfl
  | cons b bs ih =>
    rw [findDupMsg, if_neg (h b (List.mem_cons_self b bs))]
    exact ih (fun x hx => h x (List.mem_cons_of_mem b hx))

theorem buildBufferMaps_ok (bs : List BufferData) (h : findDupMsg bs = none) :
    ∀ bp blp, buildBufferMaps bp blp bs = .ok (bufferAssocsAux bp blp bs) := by
  induction bs with
  | nil => intro bp blp; rfl
  | cons b bs ih =>
    intro bp blp
    rw [findDupMsg] at h
    by_cases hd : b.src = b.len
    · rw [if_pos hd] at h
      exact absurd h (by simp)
    · rw [if_neg hd] at h
      rw [buildBufferMaps, if_neg hd, bufferAssocsAux]
      exact ih h _ _

theorem buildBufferMaps_error (bs : List BufferData) (m : String)
    (h : findDupMsg bs = some m) :
    ∀ bp blp, buildBufferMaps bp blp bs = .error m := by
  induction bs with
  | nil => intro bp blp; exact absurd h (by simp [findDupMsg])
  | cons b bs ih =>
    intro bp blp
    rw [findDupMsg] at h
    by_cases hd : b.src = b.len
    · rw [if_pos hd] at h
      rw [buildBufferMaps, if_pos hd]
      rw [Option.some.inj h]
    · rw [if_neg hd] at h
      rw [buildBufferMaps, if_neg hd]
      exact ih h _ _

theorem mem_keys_insertReplace (x k : String) (v : BufferData) :
    ∀ (l : List (String × BufferData)),
    x ∈ (insertReplace k v l).map Prod.fst ↔ x ∈ l.map Prod.fst ∨ x = k := by
  intro l
  induction l with
  | nil => simp [insertReplace]
  | cons kv rest ih =>
    rw [insertReplace]
    by_cases hk : kv.1 = k
    · rw [if_pos hk]
      simp only [List.map_cons, List.mem_cons, hk]
      constructor
      · rintro (rfl | hx)
        · exact Or.inr rfl
        · exact Or.inl (Or.inr hx)
      · rintro ((rfl | hx) | rfl)
        · exact Or.inl rfl
        · exact Or.inr hx
        · exact Or.inl rfl
    · rw [if_neg hk]
      simp only [List.map_cons, List.mem_cons, ih]
      tauto

theorem nodup_keys_insertReplace (k : String) (v : BufferData) :
    ∀ (l : List (String × BufferData)), (l.map Prod.fst).Nodup →
    ((insertReplace k v l).map Prod.fst).Nodup := by
  intro l
  induction l with
  | nil => intro _; simp [insertReplace]
  | cons kv rest ih =>
    intro h
    rw [List.map_cons, List.nodup_cons] at h
    rw [insertReplace]
    by_cases hk : kv.1 = k
    · rw [if_pos hk]
      rw [List.map_cons, List.nodup_cons]
      exact ⟨hk ▸ h.1, h.2⟩
    · rw [if_neg hk]
      rw [List.map_cons, List.nodup_cons]
      refine ⟨fun hx => ?_, ih h.2⟩
      rcases (mem_keys_insertReplace kv.1 k v rest).mp hx with hx | hx
      · exact h.1 hx
      · exact hk hx

theorem nodup_keys_bufferAssocsAux :
    ∀ (bs : List BufferData) (bp blp : List (String × BufferData)),
    (bp.map Prod.fst).Nodup → (((bufferAssocsAux bp blp bs).1).map Prod.fst).Nodup := by
  intro bs
  induction bs with
  | nil => intro bp blp h; exact h
  | cons b bs ih =>
    intro bp blp h
    rw [bufferAssocsAux]
    exact ih _ _ (nodup_keys_insertReplace b.src b bp h)

theorem nodup_keys_bufferAssocs (bs : List BufferData) :
    (((bufferAssocs bs).1).map Prod.fst).Nodup :=
  nodup_keys_bufferAssocsAux bs [] [] (by simp)

theorem map_fst_filter_key (pred : String → Bool) :
    ∀ (l : List (String × BufferData)),
    (l.filter (fun kv => pred kv.1)).map Prod.fst = (l.map Prod.fst).filter pred := by
  intro l
  induction l with
  | nil => rfl
  | cons kv rest ih =>
    rw [List.filter_cons, List.map_cons, List.filter_cons]
    by_cases hp : pred kv.1
    · rw [if_pos (by simpa using hp), if_pos (by simpa using hp), List.map_cons, ih]
    · rw [if_neg (by simpa using hp), if_neg (by simpa using hp), ih]

theorem functionHook_ok_elim (ctx : Hooks) (fn : Fn) (data0 : FunctionData)
    (internal : Bool) (out : FnOut) (h : functionHook ctx fn data0 internal = .ok out) :
    ∃ xn maps, computeXName ctx data0 fn.name = .ok xn
      ∧ buildBufferMaps [] [] (adjustGil data0).buffers = .ok maps
      ∧ (fnLoopState fn (adjustGil data0) maps).bufferParams = []
      ∧ out = mkFnOut ctx fn (adjustGil data0) internal xn
          (fnLoopState fn (adjustGil data0) maps) := by
  simp only [functionHook] at h
  match hxn : computeXName ctx data0 fn.name with
  | .error e => simp only [hxn] at h; exact absurd h (by simp)
  | .ok xn =>
    simp only [hxn] at h
    match hbm : buildBufferMaps [] [] (adjustGil data0).buffers with
    | .error e => simp only [hbm] at h; exact absurd h (by simp)
    | .ok maps =>
      simp only [hbm] at h
      by_cases hbp : (fnLoopState fn (adjustGil data0) maps).bufferParams.isEmpty
      · rw [if_pos hbp] at h
        exact ⟨xn, maps, rfl, rfl, List.isEmpty_iff.mp hbp, (Except.ok.inj h).symm⟩
      · rw [if_neg hbp] at h
        exact absurd h (by simp)

theorem adjustGil_buffers (d : FunctionData) : (adjustGil d).buffers = d.buffers := by
  rw [adjustGil]
  split
  · rfl
  · rfl

theorem adjustGil_rename (d : FunctionData) : (adjustGil d).rename = d.rename := by
  rw [adjustGil]
  split
  · rfl
  · rfl

theorem adjustGil_internal (d : FunctionData) : (adjustGil d).internal = d.internal := by
  rw [adjustGil]
  split
  · rfl
  · rfl

theorem computeXName_ok_spec (ctx : Hooks) (data : FunctionData) (n xn : String)
    (hf : pyTruthyStr data.rename = false) (h : computeXName ctx data n = .ok xn) :
    xn = pyCamel (stripFirstPfx ctx.strip_prefixes n) := by
  rw [computeXName, setName, hf] at h
  simp only [Bool.false_eq_true, if_false, Bool.not_false, Bool.true_and] at h
  rw [pyCamel]
  by_cases hu : pyIsUpper (strTake (stripFirstPfx ctx.strip_prefixes n) 2)
  · rw [if_pos hu]
    rw [hu] at h
    simp only [Bool.not_true, Bool.false_eq_true, if_false] at h
    exact (Except.ok.inj h).symm
  · rw [if_neg hu]
    rw [Bool.not_eq_true] at hu
    rw [hu] at h
    simp only [Bool.not_false, if_true] at h
    match hd : (stripFirstPfx ctx.strip_prefixes n).data with
    | [] => rw [hd] at h; exact absurd h (by simp)
    | c :: cs =>
      rw [hd] at h
      exact (Except.ok.inj h).symm

theorem wrapReturn_single (r : Ret) :
    wrapReturn [r] = if r.x_type = "void" then "" else "return " ++ r.x_retname ++ ";" := by
  by_cases hv : r.x_type = "void"
  · simp [wrapReturn, hv]
  · simp [wrapReturn, hv]

theorem wrapReturn_two (rets : List Ret) (h : 2 ≤ rets.length) :
    wrapReturn rets
      = "return std::make_tuple(" ++ String.intercalate "," (rets.map Ret.x_retname) ++ ");" := by
  match rets with
  | [] => simp at h
  | [r] => simp at h
  | a :: b :: rest => rfl

theorem fnLoopState_bufferParams (fn : Fn) (data : FunctionData) (bs : List BufferData) :
    (fnLoopState fn data (bufferAssocs bs)).bufferParams
      = (bufferAssocs bs).1.filter (fun kv => !((finalNames 0 fn.parameters).contains kv.1)) := by
  rw [fnLoopState]
  exact processParams_bufferParams fn data fn.parameters 0 (initPState fn (bufferAssocs bs))
    (nodup_keys_bufferAssocs bs)

/-! ### Claim C2 -/

/-- C2 counterexample: for void f(void* p) with p forced out, the
return aggregate has exactly one entry, yet no return statement is
generated, because the single entry has type void; the claim that one
entry always produces a direct return is therefore false. -/
theorem C2_counterexample :
    functionHook ctx0 fnVoidOut {} false = .ok outVoidOut
      ∧ outVoidOut.x_rets.length = 1
      ∧ outVoidOut.x_wrap_return = "" := by
  refine ⟨rfl, rfl, rfl⟩

/-- C2 (amended): for every function the return aggregate is the
primary return (exactly when the declared return type is not void)
followed by the out-parameters in their original declaration order, so
its arity is (1 if non-void else 0) plus the out-parameter count; zero
entries produce no return statement, exactly one produces a direct
return of that value unless its type is void (then no return
statement), and two or more produce the ordered tuple. -/
theorem C2_return_aggregate (ctx : Hooks) (fn : Fn) (data : FunctionData) (internal : Bool)
    (out : FnOut) (h : functionHook ctx fn data internal = .ok out) :
    out.x_rets = primaryRets fn ++ out.x_out_params.map (fun p =>
        ({ x_retname := p.x_retname, x_type := p.x_type } : Ret))
      ∧ out.x_rets.length = (if fn.rtnType = "void" then 0 else 1) + out.x_out_params.length
      ∧ out.x_out_params.Sublist out.parameters
      ∧ (out.x_rets = [] → out.x_wrap_return = "")
      ∧ (∀ r, out.x_rets = [r] →
          out.x_wrap_return = if r.x_type = "void" then "" else "return " ++ r.x_retname ++ ";")
      ∧ (2 ≤ out.x_rets.length →
          out.x_wrap_return = "return std::make_tuple("
            ++ String.intercalate "," (out.x_rets.map Ret.x_retname) ++ ");") := by
  obtain ⟨xn, maps, hxn, hbm, hbp, hout⟩ := functionHook_ok_elim ctx fn data internal out h
  subst hout
  refine ⟨rfl, ?_, ?_, ?_, ?_, ?_⟩
  · show (primaryRets fn ++ _).length = _
    rw [List.length_append, List.length_map]
    congr 1
    by_cases hv : fn.rtnType = "void"
    · simp [primaryRets, hv]
    · simp [primaryRets, hv]
  · show (fnLoopState fn (adjustGil data) maps).x_out_params.Sublist
      (fnLoopState fn (adjustGil data) maps).params
    obtain ⟨new, newOut, h1, h2, h3⟩ :=
      processParams_append fn (adjustGil data) fn.parameters 0 (initPState fn maps)
    rw [fnLoopState, h1, h2]
    simpa [initPState] using h3
  · intro he
    show wrapReturn _ = ""
    rw [show (primaryRets fn ++ (fnLoopState fn (adjustGil data) maps).x_out_params.map (fun p =>
      ({ x_retname := p.x_retname, x_type := p.x_type } : Ret))) = [] from he]
    rfl
  · intro r he
    show wrapReturn _ = _
    rw [show (primaryRets fn ++ (fnLoopState fn (adjustGil data) maps).x_out_params.map (fun p =>
      ({ x_retname := p.x_retname, x_type := p.x_type } : Ret))) = [r] from he]
    exact wrapReturn_single r
  · intro hlen
    exact wrapReturn_two _ hlen

/-- C2 witness: for int f2(int* v) the aggregate is the primary int
return followed by the out-parameter v, of arity two, and the
out-parameters are a sublist of the parameter list. -/
theorem C2_witness :
    outIntOut.x_rets = primaryRets fnIntOut ++ outIntOut.x_out_params.map (fun p =>
        ({ x_retname := p.x_retname, x_type := p.x_type } : Ret))
      ∧ outIntOut.x_rets.length
          = (if fnIntOut.rtnType = "void" then 0 else 1) + outIntOut.x_out_params.length
      ∧ outIntOut.x_out_params.Sublist outIntOut.parameters
      ∧ outIntOut.x_rets.length = 2 := by
  have h := C2_return_aggregate ctx0 fnIntOut {} false outIntOut rfl
  exact ⟨h.1, h.2.1, h.2.2.1, rfl⟩

/-! ### Claim C3 -/

/-- C3 counterexample: in the GetValue scenario the pointer length
parameter len is promoted to an out-parameter and the wrapped return
aggregate has two entries, not just the int primary return, so the
claimed suppression of len is false. -/
theorem C3_counterexample :
    functionHook ctx0 fnGetValue dataGetValue false = .ok outGetValue
      ∧ outGetValue.x_rets.length = 2
      ∧ outGetValue.x_out_params.map Param.name = ["len"] := by
  refine ⟨rfl, rfl, rfl⟩

/-- C3 (amended): in the GetValue scenario buf is classified as a
buffer (a constant reference to py::buffer whose call site casts the
buffer storage pointer), len is computed as buf.size times buf.itemsize
in the lambda prelude, and — because len is a pointer — it becomes an
out-parameter passed by address whose value joins the primary int
return in a two-entry tuple, rather than being suppressed. -/
theorem C3_buffer_len_scenario :
    outGetValue.x_all_params.map Param.x_type_full = ["const py::buffer&", "int*"]
      ∧ outGetValue.x_all_params.map Param.x_callname = ["(uint8_t*)__buf.ptr", "&len"]
      ∧ outGetValue.x_out_params.map Param.name = ["len"]
      ∧ outGetValue.x_in_params.map Param.name = ["buf"]
      ∧ outGetValue.x_lambda_pre
          = ["int len = 0", "auto __buf = buf.request(false)",
             "len = __buf.size * __buf.itemsize"]
      ∧ outGetValue.x_rets.map Ret.x_retname = ["__ret", "len"]
      ∧ outGetValue.x_rets.map Ret.x_type = ["int", "int"]
      ∧ outGetValue.x_wrap_return = "return std::make_tuple(__ret,len);"
      ∧ outGetValue.x_genlambda = true := by
  refine ⟨rfl, rfl, rfl, rfl, rfl, rfl, rfl, rfl, rfl⟩

/-! ### Claim C4 -/

/-- C4 counterexample: a buffer spec whose length name matches no
parameter is accepted silently: classification succeeds, and the
generated prelude assigns to the nonexistent name; the claim that any
unconsumed source or length name fails classification is therefore
false. -/
theorem C4_counterexample :
    isOkE (functionHook ctx0 fnBufOnly dataLenUnmatched false) = true
      ∧ (fnOutOf (functionHook ctx0 fnBufOnly dataLenUnmatched false)).x_lambda_pre
          = ["auto __buf = buf.request(false)", "nosuch = __buf.size * __buf.itemsize"] := by
  refine ⟨rfl, rfl⟩

/-- C4 (amended): under a well-formed configuration (no spec with
coinciding names, and a resolvable function name) classification fails
if and only if some buffer source name was not consumed by a parameter,
with a configuration error naming exactly the unconsumed source names;
unconsumed length names are not checked. -/
theorem C4_src_name_check (ctx : Hooks) (fn : Fn) (data : FunctionData) (internal : Bool)
    (hname : isOkE (computeXName ctx data fn.name) = true)
    (hsl : ∀ b ∈ data.buffers, b.src ≠ b.len) :
    (unconsumedSrcKeys data.buffers fn.parameters = [] →
        isOkE (functionHook ctx fn data internal) = true)
      ∧ (unconsumedSrcKeys data.buffers fn.parameters ≠ [] →
          functionHook ctx fn data internal
            = .error (bufLeftoverMsg (unconsumedSrcKeys data.buffers fn.parameters))) := by
  match hxn : computeXName ctx data fn.name with
  | .error e => rw [hxn] at hname; exact absurd hname (by simp [isOkE])
  | .ok xn =>
    have hbm : buildBufferMaps [] [] (adjustGil data).buffers = .ok (bufferAssocs data.buffers) := by
      rw [adjustGil_buffers]
      exact buildBufferMaps_ok data.buffers (findDupMsg_none_of_ne data.buffers hsl) [] []
    have hlf := fnLoopState_bufferParams fn (adjustGil data) data.buffers
    have hkeys : (fnLoopState fn (adjustGil data) (bufferAssocs data.buffers)).bufferParams.map
        Prod.fst = unconsumedSrcKeys data.buffers fn.parameters := by
      rw [hlf, unconsumedSrcKeys]
      exact map_fst_filter_key (fun k => !((finalNames 0 fn.parameters).contains k))
        (bufferAssocs data.buffers).1
    constructor
    · intro hun
      simp only [functionHook, hxn, hbm]
      have he : (fnLoopState fn (adjustGil data) (bufferAssocs data.buffers)).bufferParams = [] := by
        have := hkeys.trans hun
        exact List.map_eq_nil_iff.mp this
      rw [if_pos (by rw [he]; rfl)]
      rfl
    · intro hun
      simp only [functionHook, hxn, hbm]
      have hne : ¬ (fnLoopState fn (adjustGil data)
          (bufferAssocs data.buffers)).bufferParams.isEmpty = true := by
        intro hE
        apply hun
        rw [← hkeys, List.isEmpty_iff.mp hE]
        rfl
      rw [if_neg hne, hkeys]

/-- C4 witness: a spec whose source name nosrc matches no parameter
fails with the configuration error naming exactly that source name. -/
theorem C4_witness :
    functionHook ctx0 fnBufOnly dataSrcUnmatched false
      = .error "incorrect buffer param names \x27nosrc\x27" := by
  have h := C4_src_name_check ctx0 fnBufOnly dataSrcUnmatched false (by decide) (by decide)
  have h2 := h.2 (by decide)
  have h3 : bufLeftoverMsg (unconsumedSrcKeys dataSrcUnmatched.buffers fnBufOnly.parameters)
      = "incorrect buffer param names \x27nosrc\x27" := by decide
  rw [h3] at h2
  exact h2

/-! ### Claim C5 -/

/-- C5 counterexample: with the prefix Get stripped and no rename, the
name GetFoo becomes foo, not Foo: the camel-case lowering is applied
even though a prefix was stripped, so the claim that lowering is
restricted to names with neither a rename nor a stripped prefix is
false. -/
theorem C5_counterexample :
    functionHook ctxStripGet fnGetFoo {} false = .ok outGetFoo
      ∧ outGetFoo.x_name = "foo"
      ∧ ¬ outGetFoo.x_name = "Foo" := by
  refine ⟨rfl, rfl, by decide⟩

/-- C5 (amended): an explicit truthy rename wins outright; otherwise
the first matching configured prefix is stripped once and the
lower-leading camel-case conversion is applied to every function
without a rename — including those whose prefix was stripped — except
when the first two characters of the resulting name are both
uppercase. -/
theorem C5_name_resolution (ctx : Hooks) (fn : Fn) (data : FunctionData) (internal : Bool)
    (out : FnOut) (h : functionHook ctx fn data internal = .ok out) :
    (pyTruthyStr data.rename = true → out.x_name = data.rename.getD "")
      ∧ (pyTruthyStr data.rename = false → data.internal = false → internal = false →
          fn.constructor = false →
          out.x_name = pyCamel (stripFirstPfx ctx.strip_prefixes fn.name)) := by
  obtain ⟨xn, maps, hxn, hbm, hbp, hout⟩ := functionHook_ok_elim ctx fn data internal out h
  subst hout
  constructor
  · intro ht
    show (if pyTruthyStr (adjustGil data).rename then (adjustGil data).rename.getD ""
      else if (adjustGil data).internal || internal then "_" ++ xn
      else if fn.constructor then "__init__" else xn) = data.rename.getD ""
    rw [adjustGil_rename, if_pos ht]
  · intro hf hi1 hi2 hc
    show (if pyTruthyStr (adjustGil data).rename then (adjustGil data).rename.getD ""
      else if (adjustGil data).internal || internal then "_" ++ xn
      else if fn.constructor then "__init__" else xn) = _
    rw [adjustGil_rename, hf, adjustGil_internal, hi1, hi2, hc]
    simp only [Bool.false_eq_true, if_false, Bool.or_self]
    exact computeXName_ok_spec ctx data fn.name xn hf hxn

/-- C5 witness: GetFoo under the Get strip resolves through the
camel-case conversion of the stripped name, evaluating to foo. -/
theorem C5_witness :
    outGetFoo.x_name = pyCamel (stripFirstPfx ctxStripGet.strip_prefixes "GetFoo")
      ∧ pyCamel (stripFirstPfx ctxStripGet.strip_prefixes "GetFoo") = "foo" := by
  have h := C5_name_resolution ctxStripGet fnGetFoo {} false outGetFoo rfl
  exact ⟨h.2 rfl rfl rfl rfl, by decide⟩

/-! ### Claim C7 -/

/-- C7: a buffer spec whose source and length names coincide makes
function processing fail with the descriptive error of the first such
spec, provided the function name itself resolves; the failure is
independent of the parameter records, which models that it is raised
before any parameter has been classified or mutated. -/
theorem C7_src_eq_len_rejected (ctx : Hooks) (fn : Fn) (data : FunctionData) (internal : Bool)
    (hname : isOkE (computeXName ctx data fn.name) = true)
    (m : String) (hdup : findDupMsg data.buffers = some m) :
    functionHook ctx fn data internal = .error m
      ∧ ∀ ps, functionHook ctx { fn with parameters := ps } data internal = .error m := by
  match hxn : computeXName ctx data fn.name with
  | .error e => rw [hxn] at hname; exact absurd hname (by simp [isOkE])
  | .ok xn =>
    have hbm : buildBufferMaps [] [] (adjustGil data).buffers = .error m := by
      rw [adjustGil_buffers]
      exact buildBufferMaps_error data.buffers m hdup [] []
    constructor
    · simp only [functionHook, hxn, hbm]
    · intro ps
      simp only [functionHook, hxn, hbm]

/-- C7 witness: the spec with source and length both named b is
rejected with the descriptive error. -/
theorem C7_witness :
    functionHook ctx0 fnBufOnly dataSrcEqLen false
      = .error "buffer src(b) and len(b) cannot be the same" :=
  (C7_src_eq_len_rejected ctx0 fnBufOnly dataSrcEqLen false (by decide)
    "buffer src(b) and len(b) cannot be the same" (by decide)).1

theorem qualifyBase_cls (cls : ClsRecord) (cd : ClassData) (b : BaseRec) :
    (qualifyBase cls cd b).cls = b.cls := rfl

theorem map_qualifyBase_cls (cls : ClsRecord) (cd : ClassData) :
    (cls.inherits.map (qualifyBase cls cd)).map BaseRec.cls
      = cls.inherits.map BaseRec.cls := by
  rw [List.map_map]
  rfl

theorem processMethodsA_poly (ctx : Hooks) (clsId : Nat) (key : String) (cd : ClassData)
    (access : String) :
    ∀ (fns : List Fn) (st mst : MState),
    processMethodsA ctx clsId key cd access fns st = .ok mst →
    mst.is_polymorphic = (st.is_polymorphic || fns.any (fun m => m.override || m.virtual)) := by
  intro fns
  induction fns with
  | nil =>
    intro st mst h
    rw [processMethodsA] at h
    cases Except.ok.inj h
    simp
  | cons fn fns ih =>
    intro st mst h
    simp only [processMethodsA] at h
    split at h
    · rw [ih _ _ h]
      simp [Bool.or_assoc]
    · split at h
      · split at h
        · rw [ih _ _ h]
          simp [Bool.or_assoc]
        · split at h
          · exact absurd h (by simp)
          · rw [ih _ _ h]
            simp [Bool.or_assoc]
      · rw [ih _ _ h]
        simp [Bool.or_assoc]

theorem processMethods_poly (ctx : Hooks) (clsId : Nat) (key : String) (cd : ClassData)
    (cls : ClsRecord) (st mst : MState)
    (h : processMethods ctx clsId key cd cls st = .ok mst) :
    mst.is_polymorphic = (st.is_polymorphic
      || (cls.methodsPublic ++ cls.methodsProtected ++ cls.methodsPrivate).any
          (fun m => m.override || m.virtual)) := by
  rw [processMethods] at h
  match h1 : processMethodsA ctx clsId key cd "public" cls.methodsPublic st with
  | .error e => simp only [h1] at h; exact absurd h (by simp)
  | .ok st1 =>
    simp only [h1] at h
    match h2 : processMethodsA ctx clsId key cd "protected" cls.methodsProtected st1 with
    | .error e => simp only [h2] at h; exact absurd h (by simp)
    | .ok st2 =>
      simp only [h2] at h
      rw [processMethodsA_poly ctx clsId key cd "private" cls.methodsPrivate st2 mst h,
        processMethodsA_poly ctx clsId key cd "protected" cls.methodsProtected st1 st2 h2,
        processMethodsA_poly ctx clsId key cd "public" cls.methodsPublic st st1 h1]
      simp [List.any_append, Bool.or_assoc]

theorem classHook_done_elim (ctx : Hooks) (cls : ClsRecord) (out : ClassOut)
    (h : classHook ctx cls = .ok (.done out)) :
    ∃ mst, processMethods ctx cls.id (clsKey cls) (ctx.getClassData (clsKey cls)) cls
        { is_polymorphic :=
            (ctx.getClassData (clsKey cls)).is_polymorphic || !cls.inherits.isEmpty }
        = .ok mst
      ∧ out.x_has_trampoline = (mst.is_polymorphic && !cls.final
          && !(ctx.getClassData (clsKey cls)).force_no_trampoline)
      ∧ out.x_inherits
          = (filterIgnoredBases
              (cls.inherits.map (qualifyBase cls (ctx.getClassData (clsKey cls))))
              (pyDedup [] (ctx.getClassData (clsKey cls)).ignored_bases)).1
      ∧ out.hierarchyEntry
          = (filterIgnoredBases
              (cls.inherits.map (qualifyBase cls (ctx.getClassData (clsKey cls))))
              (pyDedup [] (ctx.getClassData (clsKey cls)).ignored_bases)).1.map
                BaseRec.x_qualname
            ++ (ctx.getClassData (clsKey cls)).force_depends := by
  simp only [classHook] at h
  split at h
  · exact absurd (Except.ok.inj h) (by simp)
  · split at h
    · exact absurd (Except.ok.inj h) (by simp)
    · match he : processClsEnums ctx cls.name (clsKey cls) cls.enumsPublic with
      | .error e => simp only [he] at h; exact absurd h (by simp)
      | .ok enums =>
        simp only [he] at h
        split at h
        · exact absurd h (by simp)
        · match hm : processMethods ctx cls.id (clsKey cls) (ctx.getClassData (clsKey cls)) cls
              { is_polymorphic :=
                  (ctx.getClassData (clsKey cls)).is_polymorphic || !cls.inherits.isEmpty } with
          | .error e => simp only [hm] at h; exact absurd h (by simp)
          | .ok mst =>
            simp only [hm] at h
            have hout := Except.ok.inj h
            have hout2 : ClassResult.done _ = ClassResult.done out := hout
            cases hout2
            exact ⟨mst, rfl, rfl, rfl, rfl⟩

theorem filterIgnoredBases_snd :
    ∀ (bs : List BaseRec) (ib : List String), ib.Nodup →
    (filterIgnoredBases bs ib).2
      = ib.filter (fun n => !((bs.map BaseRec.cls).contains n)) := by
  intro bs
  induction bs with
  | nil =>
    intro ib _
    simp [filterIgnoredBases]
  | cons b bs ih =>
    intro ib hib
    rw [filterIgnoredBases]
    by_cases hc : ib.contains b.cls
    · rw [if_pos hc]
      rw [ih (ib.erase b.cls) (hib.erase b.cls)]
      rw [hib.erase_eq_filter b.cls, List.filter_filter]
      apply List.filter_congr
      intro n _
      simp only [List.map_cons, List.contains_cons, Bool.not_or, bne]
      rw [Bool.and_comm]
    · rw [if_neg hc]
      rw [ih ib hib]
      apply List.filter_congr
      intro n hn
      have hnb : ¬ n = b.cls := by
        intro hEq
        subst hEq
        exact hc (by simpa [List.contains] using hn)
      simp [List.contains_cons, hnb]

theorem filterIgnoredBases_fst :
    ∀ (bs : List BaseRec) (ib : List String), (bs.map BaseRec.cls).Nodup →
    (filterIgnoredBases bs ib).1 = bs.filter (fun b => !(ib.contains b.cls)) := by
  intro bs
  induction bs with
  | nil =>
    intro ib _
    rfl
  | cons b bs ih =>
    intro ib hbs
    rw [List.map_cons, List.nodup_cons] at hbs
    rw [filterIgnoredBases, List.filter_cons]
    by_cases hc : ib.contains b.cls
    · rw [if_pos hc]
      have hb : (!ib.contains b.cls) = false := by rw [hc]; rfl
      rw [hb]
      simp only [Bool.false_eq_true, if_neg, ite_false]
      rw [ih (ib.erase b.cls) hbs.2]
      apply List.filter_congr
      intro b' hb'
      have hne : b'.cls ≠ b.cls := by
        intro hEq
        exact hbs.1 (hEq ▸ List.mem_map_of_mem BaseRec.cls hb')
      have hmem : b'.cls ∈ ib.erase b.cls ↔ b'.cls ∈ ib := by
        constructor
        · intro hx
          exact List.mem_of_mem_erase hx
        · intro hx
          exact List.mem_erase_of_ne hne |>.mpr hx
      simp [List.contains, hmem]
    · rw [if_neg hc]
      have hcf : ib.contains b.cls = false := by
        cases hcb : ib.contains b.cls
        · rfl
        · exact absurd hcb hc
      have hb : (!ib.contains b.cls) = true := by rw [hcf]; rfl
      rw [hb]
      simp only [if_pos]
      rw [ih ib hbs.2]

/-! ### Claim C1 -/

/-- C1: for every class that class_hook processes to completion, the
trampoline flag equals polymorphic AND NOT final AND NOT
force_no_trampoline, where polymorphic holds exactly when the class is
explicitly marked polymorphic by override, or declares at least one
base, or declares a method at any access level marked virtual or
override. -/
theorem C1_trampoline_flag (ctx : Hooks) (cls : ClsRecord) (out : ClassOut)
    (h : classHook ctx cls = .ok (.done out)) :
    out.x_has_trampoline =
      (((ctx.getClassData (clsKey cls)).is_polymorphic
          || !cls.inherits.isEmpty
          || (cls.methodsPublic ++ cls.methodsProtected ++ cls.methodsPrivate).any
              (fun m => m.override || m.virtual))
        && !cls.final
        && !(ctx.getClassData (clsKey cls)).force_no_trampoline) := by
  obtain ⟨mst, hm, hflag, _, _⟩ := classHook_done_elim ctx cls out h
  rw [hflag, processMethods_poly ctx cls.id (clsKey cls) (ctx.getClassData (clsKey cls))
    cls _ mst hm]

/-- C1 witness: the two-base class with a public virtual method and no
final marker requires a trampoline. -/
theorem C1_witness :
    classHook ctxForceDepends clsTwoBases = .ok (.done outTwoBases)
      ∧ outTwoBases.x_has_trampoline = true := by
  constructor
  · rfl
  · have h := C1_trampoline_flag ctxForceDepends clsTwoBases outTwoBases rfl
    exact h.trans (by decide)

/-! ### Claim C6 -/

/-- C6 counterexample: for a class whose ignored_bases all match, the
hierarchy entry is not the declared bases minus the ignored ones: it
additionally carries the configured forced dependency edge X, so the
claimed equality fails. -/
theorem C6_counterexample :
    classHook ctxForceDepends clsTwoBases = .ok (.done outTwoBases)
      ∧ outTwoBases.hierarchyEntry = ["ns::A", "X"]
      ∧ outTwoBases.x_inherits.map BaseRec.x_qualname = ["ns::A"] := by
  refine ⟨rfl, rfl, rfl⟩

/-- C6 (amended): for a class not skipped earlier whose nested enums
process cleanly, if any deduplicated ignored_bases name matches no
declared base name, class processing fails with the configuration
error naming exactly the unmatched names and the declared base names;
when processing succeeds (and the declared base names are distinct),
the kept bases are the declared bases minus the ignored ones and the
hierarchy entry is their resolved qualified names followed by the
configured forced dependency edges. -/
theorem C6_ignored_bases_validation (ctx : Hooks) (cls : ClsRecord)
    (h1 : cls.parents = [] ∨ cls.access_in_parent ≠ "private")
    (h2 : (ctx.getClassData (clsKey cls)).ignore = false)
    (h3 : isOkE (processClsEnums ctx cls.name (clsKey cls) cls.enumsPublic) = true) :
    ((pyDedup [] (ctx.getClassData (clsKey cls)).ignored_bases).filter
        (fun n => !((cls.inherits.map BaseRec.cls).contains n)) ≠ [] →
      classHook ctx cls = .error (ignoredBasesMsg cls.name
        ((pyDedup [] (ctx.getClassData (clsKey cls)).ignored_bases).filter
          (fun n => !((cls.inherits.map BaseRec.cls).contains n)))
        (cls.inherits.map BaseRec.cls)))
    ∧ ((cls.inherits.map BaseRec.cls).Nodup → ∀ out, classHook ctx cls = .ok (.done out) →
        out.x_inherits
            = (cls.inherits.map (qualifyBase cls (ctx.getClassData (clsKey cls)))).filter
              (fun b => !((pyDedup [] (ctx.getClassData (clsKey cls)).ignored_bases).contains b.cls))
          ∧ out.hierarchyEntry
            = ((cls.inherits.map (qualifyBase cls (ctx.getClassData (clsKey cls)))).filter
                (fun b => !((pyDedup []
                  (ctx.getClassData (clsKey cls)).ignored_bases).contains b.cls))).map
                    BaseRec.x_qualname
              ++ (ctx.getClassData (clsKey cls)).force_depends) := by
  have hsnd : (filterIgnoredBases
      (cls.inherits.map (qualifyBase cls (ctx.getClassData (clsKey cls))))
      (pyDedup [] (ctx.getClassData (clsKey cls)).ignored_bases)).2
      = (pyDedup [] (ctx.getClassData (clsKey cls)).ignored_bases).filter
        (fun n => !((cls.inherits.map BaseRec.cls).contains n)) := by
    rw [filterIgnoredBases_snd _ _ (nodup_pyDedup [] _)]
    simp only [map_qualifyBase_cls]
  constructor
  · intro hinv
    have hcond : (!cls.parents.isEmpty && decide (cls.access_in_parent = "private")) = false := by
      rcases h1 with h1 | h1
      · rw [h1]
        rfl
      · have hdec : decide (cls.access_in_parent = "private") = false := by
          simp [h1]
        rw [hdec, Bool.and_false]
    simp only [classHook, hcond, Bool.false_eq_true, if_false]
    rw [h2]
    simp only [Bool.false_eq_true, if_false]
    match hes : processClsEnums ctx cls.name (clsKey cls) cls.enumsPublic with
    | .error e => rw [hes] at h3; exact absurd h3 (by simp [isOkE])
    | .ok es =>
      simp only [hes]
      have hne2 : (filterIgnoredBases
          (cls.inherits.map (qualifyBase cls (ctx.getClassData (clsKey cls))))
          (pyDedup [] (ctx.getClassData (clsKey cls)).ignored_bases)).2 ≠ [] := by
        rw [hsnd]
        exact hinv
      have hbne : (!(filterIgnoredBases
          (cls.inherits.map (qualifyBase cls (ctx.getClassData (clsKey cls))))
          (pyDedup [] (ctx.getClassData (clsKey cls)).ignored_bases)).2.isEmpty) = true := by
        cases hie : (filterIgnoredBases
            (cls.inherits.map (qualifyBase cls (ctx.getClassData (clsKey cls))))
            (pyDedup [] (ctx.getClassData (clsKey cls)).ignored_bases)).2.isEmpty
        · rfl
        · exact absurd (List.isEmpty_iff.mp hie) hne2
      rw [if_pos hbne, hsnd]
  · intro hN out hout
    obtain ⟨mst, hm, hflag, hinh, hentry⟩ := classHook_done_elim ctx cls out hout
    have hfst : (filterIgnoredBases
        (cls.inherits.map (qualifyBase cls (ctx.getClassData (clsKey cls))))
        (pyDedup [] (ctx.getClassData (clsKey cls)).ignored_bases)).1
        = (cls.inherits.map (qualifyBase cls (ctx.getClassData (clsKey cls)))).filter
          (fun b => !((pyDedup []
            (ctx.getClassData (clsKey cls)).ignored_bases).contains b.cls)) := by
      apply filterIgnoredBases_fst
      rw [map_qualifyBase_cls]
      exact hN
    exact ⟨hinh.trans hfst, by rw [hentry, hfst]⟩

/-- C6 witness: the class Derived with single base Base and
ignored_bases listing Other fails with the configuration error naming
Other as invalid and Base as the valid base list. -/
theorem C6_witness :
    classHook ctxBadIgnoredBase clsDerived
      = .error "Derived: ignored_bases contains non-existant bases Other; valid bases are Base" := by
  have h := C6_ignored_bases_validation ctxBadIgnoredBase clsDerived (Or.inl rfl) rfl rfl
  have h2 := h.1 (by decide)
  have h3 : ignoredBasesMsg clsDerived.name
      ((pyDedup [] (ctxBadIgnoredBase.getClassData (clsKey clsDerived)).ignored_bases).filter
        (fun n => !((clsDerived.inherits.map BaseRec.cls).contains n)))
      (clsDerived.inherits.map BaseRec.cls)
      = "Derived: ignored_bases contains non-existant bases Other; valid bases are Base" := by
    decide
  rw [h3] at h2
  exact h2
